import Mathlib

/-!
# Verification of the Space Invaders gameplay core (`src/main.cpp`)

Shallow embedding of the gameplay/rendering core of the most complete
snapshot in `src/main.cpp`: the pixel buffer and sprite blitting
(`buffer_clear`, `buffer_sprite_draw`), the AABB overlap test
(`sprite_overlap_check`), and the per-tick simulation performed by the
body of the game loop in `main` (alien death countdown, bullet advance
and despawn, hit detection, player movement, fire handling).

`size_t` values are modelled as `Nat`; arithmetic that can wrap in C++
(`y += dir` with a signed direction, `x -= shift`, the player-movement
comparisons) goes through explicit mod-`2^64` helpers.  Array accesses
that would be out of bounds in C++ (undefined behaviour) are modelled by
an `Except` error result, so "the step returns `.ok`" states that every
index used is in range.
-/

namespace SpaceInv

/-- `2^64`, the modulus of `size_t` arithmetic. -/
def W64 : Nat := 2 ^ 64

/-- Add a signed offset to an unsigned (`size_t`) value, wrapping mod `2^64`.
Models C++ expressions such as `y += dir` where `y : size_t`, `dir : int`. -/
def wAdd (a : Nat) (d : Int) : Nat := (((a : Int) + d) % (W64 : Int)).toNat

/-- `size_t` subtraction `a - b`, wrapping mod `2^64`. -/
def wSub (a b : Nat) : Nat := (((a : Int) - (b : Int)) % (W64 : Int)).toNat

/-- `struct Sprite` (main.cpp:15): width, height and a row-major 0/1 mask.
Row 0 of `data` is the top row of the sprite as drawn. -/
structure Sprite where
  width : Nat
  height : Nat
  data : List Nat
deriving DecidableEq, Repr, Inhabited

/-- `struct Buffer` (main.cpp:8): a `width × height` grid of packed colors. -/
structure Buffer where
  width : Nat
  height : Nat
  data : List Nat
deriving DecidableEq, Repr, Inhabited

/-- `rgb_to_uint32` (main.cpp:82): `(r << 24) | (g << 16) | (b << 8) | 255`. -/
def rgb_to_uint32 (r g b : Nat) : Nat :=
  (r <<< 24) ||| (g <<< 16) ||| (b <<< 8) ||| 255

/-- `buffer_clear` (main.cpp:87): writes `color` at every index
`i < width * height` of the buffer's data. -/
def buffer_clear (buffer : Buffer) (color : Nat) : Buffer :=
  { buffer with
    data := (List.range (buffer.width * buffer.height)).foldl
      (fun d i => d.set i color) buffer.data }

/-- The body of the inner loop of `buffer_sprite_draw` (main.cpp:100-111):
if the mask bit at `(xi, yi)` is set and the target
`(sy, sx) = (sprite.height - 1 + y - yi, x + xi)` is inside the buffer,
write `color` at data index `sy * width + sx`; otherwise do nothing. -/
def drawCell (sprite : Sprite) (x y color xi : Nat) (b : Buffer)
    (yi : Nat) : Buffer :=
  let sy := sprite.height - 1 + y - yi
  let sx := x + xi
  if sprite.data.getD (yi * sprite.width + xi) 0 ≠ 0 ∧
      sy < b.height ∧ sx < b.width then
    { b with data := b.data.set (sy * b.width + sx) color }
  else b

/-- The inner loop of `buffer_sprite_draw`: all `yi < sprite.height` for a
fixed column `xi`. -/
def drawColumn (sprite : Sprite) (x y color : Nat) (b : Buffer)
    (xi : Nat) : Buffer :=
  (List.range sprite.height).foldl (drawCell sprite x y color xi) b

/-- `buffer_sprite_draw` (main.cpp:95): for each sprite cell `(xi, yi)` with a
set mask bit, writes `color` at buffer position
`(sy, sx) = (sprite.height - 1 + y - yi, x + xi)` provided `sy < height` and
`sx < width`; out-of-range targets are silently skipped. -/
def buffer_sprite_draw (buffer : Buffer) (sprite : Sprite) (x y : Nat)
    (color : Nat) : Buffer :=
  (List.range sprite.width).foldl (drawColumn sprite x y color) buffer

/-- `enum AlienType` (main.cpp:22). -/
inductive AlienType where
  | dead
  | typeA
  | typeB
  | typeC
deriving DecidableEq, Repr, Inhabited

/-- The numeric value of an `AlienType` enumerator (`ALIEN_DEAD = 0`, ...). -/
def typeIdx : AlienType → Nat
  | .dead => 0
  | .typeA => 1
  | .typeB => 2
  | .typeC => 3

/-- `static_cast<AlienType>` from a numeric value in `{0,1,2,3}`. -/
def alienTypeOfNat : Nat → AlienType
  | 0 => .dead
  | 1 => .typeA
  | 2 => .typeB
  | _ => .typeC

/-- `struct Alien` (main.cpp:32): position in pixels from the bottom-left. -/
structure Alien where
  x : Nat
  y : Nat
  type : AlienType
deriving DecidableEq, Repr, Inhabited

/-- `struct Player` (main.cpp:39). -/
structure Player where
  x : Nat
  y : Nat
  life : Nat
deriving DecidableEq, Repr, Inhabited

/-- `struct Bullet` (main.cpp:46). -/
structure Bullet where
  x : Nat
  y : Nat
  dir : Int
deriving DecidableEq, Repr, Inhabited

/-- `struct SpriteAnimation` (main.cpp:66). -/
structure SpriteAnimation where
  loop : Bool
  num_frames : Nat
  frame_duration : Nat
  time : Nat
  frames : List Sprite
deriving DecidableEq, Repr, Inhabited

/-- `sprite_overlap_check` (main.cpp:75): AABB overlap of the two sprites'
bounding boxes at the given positions. -/
def sprite_overlap_check (sp_a : Sprite) (x_a y_a : Nat)
    (sp_b : Sprite) (x_b y_b : Nat) : Prop :=
  x_a < x_b + sp_b.width ∧ x_a + sp_a.width > x_b ∧
  y_a < y_b + sp_b.height ∧ y_a + sp_a.height > y_b

instance (sp_a : Sprite) (x_a y_a : Nat) (sp_b : Sprite) (x_b y_b : Nat) :
    Decidable (sprite_overlap_check sp_a x_a y_a sp_b x_b y_b) := by
  unfold sprite_overlap_check; infer_instance

/-- `GAME_MAX_BULLETS` (main.cpp:53). -/
def GAME_MAX_BULLETS : Nat := 128

/-- `alien_sprites[0]` (main.cpp:323): type A, frame 0, 8×8. -/
def alien_sprite0 : Sprite :=
  { width := 8, height := 8, data :=
    [0,0,0,1,1,0,0,0,
     0,0,1,1,1,1,0,0,
     0,1,1,1,1,1,1,0,
     1,1,0,1,1,0,1,1,
     1,1,1,1,1,1,1,1,
     0,1,0,1,1,0,1,0,
     1,0,0,0,0,0,0,1,
     0,1,0,0,0,0,1,0] }

/-- `alien_sprites[1]` (main.cpp:337): type A, frame 1, 8×8. -/
def alien_sprite1 : Sprite :=
  { width := 8, height := 8, data :=
    [0,0,0,1,1,0,0,0,
     0,0,1,1,1,1,0,0,
     0,1,1,1,1,1,1,0,
     1,1,0,1,1,0,1,1,
     1,1,1,1,1,1,1,1,
     0,0,1,0,0,1,0,0,
     0,1,0,1,1,0,1,0,
     1,0,1,0,0,1,0,1] }

/-- `alien_sprites[2]` (main.cpp:351): type B, frame 0, 11×8. -/
def alien_sprite2 : Sprite :=
  { width := 11, height := 8, data :=
    [0,0,1,0,0,0,0,0,1,0,0,
     0,0,0,1,0,0,0,1,0,0,0,
     0,0,1,1,1,1,1,1,1,0,0,
     0,1,1,0,1,1,1,0,1,1,0,
     1,1,1,1,1,1,1,1,1,1,1,
     1,0,1,1,1,1,1,1,1,0,1,
     1,0,1,0,0,0,0,0,1,0,1,
     0,0,0,1,1,0,1,1,0,0,0] }

/-- `alien_sprites[3]` (main.cpp:365): type B, frame 1, 11×8. -/
def alien_sprite3 : Sprite :=
  { width := 11, height := 8, data :=
    [0,0,1,0,0,0,0,0,1,0,0,
     1,0,0,1,0,0,0,1,0,0,1,
     1,0,1,1,1,1,1,1,1,0,1,
     1,1,1,0,1,1,1,0,1,1,1,
     1,1,1,1,1,1,1,1,1,1,1,
     0,1,1,1,1,1,1,1,1,1,0,
     0,0,1,0,0,0,0,0,1,0,0,
     0,1,0,0,0,0,0,0,0,1,0] }

/-- `alien_sprites[4]` (main.cpp:379): type C, frame 0, 12×8. -/
def alien_sprite4 : Sprite :=
  { width := 12, height := 8, data :=
    [0,0,0,0,1,1,1,1,0,0,0,0,
     0,1,1,1,1,1,1,1,1,1,1,0,
     1,1,1,1,1,1,1,1,1,1,1,1,
     1,1,1,0,0,1,1,0,0,1,1,1,
     1,1,1,1,1,1,1,1,1,1,1,1,
     0,0,0,1,1,0,0,1,1,0,0,0,
     0,0,1,1,0,1,1,0,1,1,0,0,
     1,1,0,0,0,0,0,0,0,0,1,1] }

/-- `alien_sprites[5]` (main.cpp:394): type C, frame 1, 12×8. -/
def alien_sprite5 : Sprite :=
  { width := 12, height := 8, data :=
    [0,0,0,0,1,1,1,1,0,0,0,0,
     0,1,1,1,1,1,1,1,1,1,1,0,
     1,1,1,1,1,1,1,1,1,1,1,1,
     1,1,1,0,0,1,1,0,0,1,1,1,
     1,1,1,1,1,1,1,1,1,1,1,1,
     0,0,1,1,1,0,0,1,1,1,0,0,
     0,1,1,0,0,1,1,0,0,1,1,0,
     0,0,1,1,0,0,0,0,1,1,0,0] }

/-- The array `alien_sprites[6]` (main.cpp:321). -/
def alien_sprites : List Sprite :=
  [alien_sprite0, alien_sprite1, alien_sprite2,
   alien_sprite3, alien_sprite4, alien_sprite5]

/-- `alien_death_sprite` (main.cpp:408): 13×7. -/
def alien_death_sprite : Sprite :=
  { width := 13, height := 7, data :=
    [0,1,0,0,1,0,0,0,1,0,0,1,0,
     0,0,1,0,0,1,0,1,0,0,1,0,0,
     0,0,0,1,0,0,0,0,0,1,0,0,0,
     1,1,0,0,0,0,0,0,0,0,0,1,1,
     0,0,0,1,0,0,0,0,0,1,0,0,0,
     0,0,1,0,0,1,0,1,0,0,1,0,0,
     0,1,0,0,1,0,0,0,1,0,0,1,0] }

/-- `player_sprite` (main.cpp:435): 11×7. -/
def player_sprite : Sprite :=
  { width := 11, height := 7, data :=
    [0,0,0,0,0,1,0,0,0,0,0,
     0,0,0,0,1,1,1,0,0,0,0,
     0,0,0,0,1,1,1,0,0,0,0,
     0,1,1,1,1,1,1,1,1,1,0,
     1,1,1,1,1,1,1,1,1,1,1,
     1,1,1,1,1,1,1,1,1,1,1,
     1,1,1,1,1,1,1,1,1,1,1] }

/-- `bullet_sprite` (main.cpp:449): 1×3. -/
def bullet_sprite : Sprite :=
  { width := 1, height := 3, data := [1, 1, 1] }

/-- The three alien animations (main.cpp:422-433) at elapsed time `t`:
`loop = true`, `num_frames = 2`, `frame_duration = 10`, frames
`{alien_sprites[2i], alien_sprites[2i+1]}`. -/
def stdAnims (t : Nat) : List SpriteAnimation :=
  [{ loop := true, num_frames := 2, frame_duration := 10, time := t,
     frames := [alien_sprite0, alien_sprite1] },
   { loop := true, num_frames := 2, frame_duration := 10, time := t,
     frames := [alien_sprite2, alien_sprite3] },
   { loop := true, num_frames := 2, frame_duration := 10, time := t,
     frames := [alien_sprite4, alien_sprite5] }]

/-- The animation update (main.cpp:530-537): `time += 1`, then reset to 0
exactly when `time == num_frames * frame_duration`. -/
def animAdvance (a : SpriteAnimation) : SpriteAnimation :=
  let t := a.time + 1
  if t = a.num_frames * a.frame_duration then { a with time := 0 }
  else { a with time := t }

/-- Errors of the simulation step: each constructor marks a vector/array
access that would be out of bounds (undefined behaviour) in the C++ code.
`fuelOut` is the exhaustion marker of the fuelled bullet loop and is proved
unreachable for the fuel the step supplies. -/
inductive SimErr where
  | fuelOut
  | oobBullets
  | oobAnimations
  | oobFrames
  | oobRoster
deriving DecidableEq, Repr

/-- The mutable game state at a tick boundary: the `Game` aggregate
(main.cpp:55), the per-alien `death_counters` (main.cpp:482), the alien
animations, and the latched `fire_pressed` flag (main.cpp:154). -/
structure GameState where
  width : Nat
  height : Nat
  num_aliens : Nat
  num_bullets : Nat
  aliens : List Alien
  player : Player
  bullets : List Bullet
  death_counters : List Nat
  animations : List SpriteAnimation
  fire_pressed : Bool
deriving DecidableEq, Repr, Inhabited

/-- The part of the state mutated by the bullet simulation loop. -/
structure ScanState where
  aliens : List Alien
  bullets : List Bullet
  num_bullets : Nat
deriving DecidableEq, Repr, Inhabited

/-- The inputs latched for one tick: the accumulated movement direction
`move_dir` (main.cpp:153) and whether a fire key-release event arrives
during the tick (latched into `fire_pressed` by `key_callback`). -/
structure Input where
  move : Int
  fireEvent : Bool
deriving DecidableEq, Repr, Inhabited

/-- The input model of the spec: the net latched movement direction is
`+1` (right held), `-1` (left held) or `0` (both/neither). -/
def ValidInput (i : Input) : Prop := i.move = -1 ∨ i.move = 0 ∨ i.move = 1

/-- The alien death countdown (main.cpp:549-556): for each `ai < num_aliens`,
if `aliens[ai].type == ALIEN_DEAD` and `death_counters[ai]` is nonzero,
decrement `death_counters[ai]`.  The indexed reads are in bounds only when
`num_aliens` is at most both vector lengths. -/
def alienCountdown (num_aliens : Nat) (aliens : List Alien)
    (dc : List Nat) : Except SimErr (List Nat) :=
  if num_aliens ≤ aliens.length ∧ num_aliens ≤ dc.length then
    .ok ((List.range dc.length).map fun ai =>
      if ai < num_aliens ∧ (aliens.getD ai default).type = AlienType.dead ∧
          dc.getD ai 0 ≠ 0 then
        dc.getD ai 0 - 1
      else dc.getD ai 0)
  else .error .oobRoster

/-- The hit-detection scan (main.cpp:571-591) for the bullet in slot `bi`:
walks the whole alien vector; skips dead aliens; for a live alien looks up
its animation (`alien_animation[alien.type - 1]`) and current frame, and
tests `sprite_overlap_check` against `bullets[bi]`.  On overlap the alien is
marked dead, its `x` is shifted left by
`(alien_death_sprite.width - alien_sprite.width) / 2`, the bullet slot is
overwritten with `bullets[num_bullets - 1]` and `num_bullets` is
decremented; the `continue` statement then moves on to the next alien, so
the scan keeps going with the slot's new contents.  A removal attempted
with `num_bullets == 0` reads `bullets[num_bullets - 1]` out of bounds. -/
def alienScan (anims : List SpriteAnimation) (bi : Nat) :
    List Alien → List Bullet → Nat →
    Except SimErr (List Alien × List Bullet × Nat)
  | [], bullets, n => .ok ([], bullets, n)
  | a :: rest, bullets, n =>
    if a.type = AlienType.dead then
      match alienScan anims bi rest bullets n with
      | .ok (as, bs, m) => .ok (a :: as, bs, m)
      | .error e => .error e
    else
      match anims[typeIdx a.type - 1]? with
      | none => .error .oobAnimations
      | some animation =>
        match animation.frames[animation.time / animation.frame_duration]? with
        | none => .error .oobFrames
        | some alien_sprite =>
          let b := bullets.getD bi default
          if sprite_overlap_check bullet_sprite b.x b.y alien_sprite a.x a.y then
            if n = 0 then .error .oobBullets
            else
              let a' : Alien :=
                { a with
                  type := .dead
                  x := wSub a.x
                    (wSub alien_death_sprite.width alien_sprite.width / 2) }
              match alienScan anims bi rest
                  (bullets.set bi (bullets.getD (n - 1) default)) (n - 1) with
              | .ok (as, bs, m) => .ok (a' :: as, bs, m)
              | .error e => .error e
          else
            match alienScan anims bi rest bullets n with
            | .ok (as, bs, m) => .ok (a :: as, bs, m)
            | .error e => .error e

/-- The body of the bullet simulation loop (main.cpp:557-594), fuelled so
that it is structurally recursive.  While `bi < num_bullets`: advance
`bullets[bi].y` by `dir` (wrapping `size_t` arithmetic), then either despawn
the bullet when `y >= height || y < bullet_sprite.height` (swap with slot
`num_bullets - 1`, shrink, and retry the same `bi`), or run the hit scan and
move to `bi + 1`. -/
def bulletLoopGo (height : Nat) (anims : List SpriteAnimation) :
    Nat → Nat → ScanState → Except SimErr ScanState
  | 0, _, _ => .error .fuelOut
  | fuel + 1, bi, st =>
    if bi < st.num_bullets then
      let b := st.bullets.getD bi default
      let y' := wAdd b.y b.dir
      let bullets1 := st.bullets.set bi { b with y := y' }
      if y' ≥ height ∨ y' < bullet_sprite.height then
        bulletLoopGo height anims fuel bi
          ⟨st.aliens,
           bullets1.set bi (bullets1.getD (st.num_bullets - 1) default),
           st.num_bullets - 1⟩
      else
        match alienScan anims bi st.aliens bullets1 st.num_bullets with
        | .error e => .error e
        | .ok (as, bs, n) => bulletLoopGo height anims fuel (bi + 1) ⟨as, bs, n⟩
    else .ok st

/-- The bullet simulation loop, with enough fuel for its worst case: each
iteration strictly decreases `num_bullets - bi`, so `num_bullets + 1` calls
always suffice. -/
def bulletLoop (height : Nat) (anims : List SpriteAnimation)
    (st : ScanState) : Except SimErr ScanState :=
  bulletLoopGo height anims (st.num_bullets + 1) 0 st

/-- The player movement step (main.cpp:595-611).  `player_move_dir` is
`2 * move_dir`; when nonzero, the comparison
`player.x + player_sprite.width + player_move_dir >= width` is done in
`size_t` (the signed offset wraps), the comparison
`(int)player.x + player_move_dir <= 0` in `int`, and otherwise
`x += player_move_dir` wraps in `size_t`. -/
def playerMove (width : Nat) (move_dir : Int) (p : Player) : Player :=
  let player_move_dir : Int := 2 * move_dir
  if player_move_dir ≠ 0 then
    if wAdd (p.x + player_sprite.width) player_move_dir ≥ width then
      { p with x := width - player_sprite.width }
    else if (p.x : Int) + player_move_dir ≤ 0 then
      { p with x := 0 }
    else
      { p with x := wAdd p.x player_move_dir }
  else p

/-- The fire handling (main.cpp:613-620): if `fire_pressed` and
`num_bullets < GAME_MAX_BULLETS`, write a new bullet at
`(player.x + player_sprite.width / 2, player.y + player_sprite.height)`
with direction `+2` into slot `num_bullets` and increment the count. -/
def fireStep (fire : Bool) (p : Player) (bs : List Bullet) (n : Nat) :
    List Bullet × Nat :=
  if fire ∧ n < GAME_MAX_BULLETS then
    (bs.set n { x := p.x + player_sprite.width / 2,
                y := p.y + player_sprite.height, dir := 2 }, n + 1)
  else (bs, n)

/-- One iteration of the game loop (main.cpp:488-625) without the buffer
drawing: advance the animations (main.cpp:530-537), run the alien death
countdown, the bullet loop, the player movement and the fire handling, then
clear `fire_pressed` (main.cpp:622) and latch the tick's incoming fire
event (`key_callback` runs from `glfwPollEvents` at main.cpp:624). -/
def stepTick (inp : Input) (s : GameState) : Except SimErr GameState :=
  match alienCountdown s.num_aliens s.aliens s.death_counters with
  | .error e => .error e
  | .ok dc =>
    match bulletLoop s.height (s.animations.map animAdvance)
        ⟨s.aliens, s.bullets, s.num_bullets⟩ with
    | .error e => .error e
    | .ok st =>
      .ok { s with
            animations := s.animations.map animAdvance
            death_counters := dc
            aliens := st.aliens
            bullets := (fireStep s.fire_pressed
              (playerMove s.width inp.move s.player) st.bullets
              st.num_bullets).1
            num_bullets := (fireStep s.fire_pressed
              (playerMove s.width inp.move s.player) st.bullets
              st.num_bullets).2
            player := playerMove s.width inp.move s.player
            fire_pressed := inp.fireEvent }

/-- `n` iterations of `stepTick` with a fixed input. -/
def stepN (inp : Input) : Nat → GameState → Except SimErr GameState
  | 0, s => .ok s
  | n + 1, s => (stepTick inp s).bind (stepN inp n)

/-- The alien type of formation row `yi` (main.cpp:474):
`static_cast<AlienType>((5 - yi) / 2 + 1)`. -/
def typeOfRow (yi : Nat) : AlienType := alienTypeOfNat ((5 - yi) / 2 + 1)

/-- The alien at roster index `k = yi * 11 + xi` of the initial formation
(main.cpp:469-480): `x = 16 xi + 20 + (alien_death_sprite.width - w) / 2`
where `w` is the width of `alien_sprites[2 * (type - 1)]`, and
`y = 17 yi + 128`. -/
def initAlien (k : Nat) : Alien :=
  let yi := k / 11
  let xi := k % 11
  let t := typeOfRow yi
  let sprite := alien_sprites.getD (2 * (typeIdx t - 1)) default
  { x := 16 * xi + 20 + (alien_death_sprite.width - sprite.width) / 2,
    y := 17 * yi + 128,
    type := t }

/-- The game state at the first tick (main.cpp:459-486): 55 aliens in the
5×11 formation, no bullets, player at `(112 - 5, 32)` with 3 lives, all
death counters at 10, animations at time 0, no latched fire. -/
def initState : GameState :=
  { width := 224, height := 256, num_aliens := 55, num_bullets := 0,
    aliens := (List.range 55).map initAlien,
    player := { x := 112 - 5, y := 32, life := 3 },
    bullets := List.replicate 128 default,
    death_counters := List.replicate 55 10,
    animations := stdAnims 0,
    fire_pressed := false }

/-- The states reachable from the start of the game loop by successful
ticks under the spec's input model. -/
inductive Reachable : GameState → Prop where
  | init : Reachable initState
  | step {s : GameState} {i : Input} {s' : GameState} :
      Reachable s → ValidInput i → stepTick i s = .ok s' → Reachable s'

/-- The per-alien drawing step of the render phase (main.cpp:492-516): an
alien with death counter 0 is skipped; a dead alien draws the death sprite;
a live alien draws the current frame of its animation. -/
def renderAlienStep (anims : List SpriteAnimation) (aliens : List Alien)
    (dc : List Nat) (buf : Buffer) (ai : Nat) : Buffer :=
  if dc.getD ai 0 = 0 then buf
  else
    let alien := aliens.getD ai default
    if alien.type = AlienType.dead then
      buffer_sprite_draw buf alien_death_sprite alien.x alien.y
        (rgb_to_uint32 128 0 0)
    else
      let animation := anims.getD (typeIdx alien.type - 1) default
      let sprite :=
        animation.frames.getD (animation.time / animation.frame_duration)
          default
      buffer_sprite_draw buf sprite alien.x alien.y (rgb_to_uint32 128 0 0)

/-- The rasterization phase of one frame (main.cpp:490-526): clear the
buffer, draw every alien with a positive death counter, draw the live
bullets, draw the player. -/
def renderFrame (buf : Buffer) (s : GameState) : Buffer :=
  let b0 := buffer_clear buf (rgb_to_uint32 0 0 0)
  let b1 := (List.range s.num_aliens).foldl
    (renderAlienStep s.animations s.aliens s.death_counters) b0
  let b2 := (List.range s.num_bullets).foldl
    (fun b bi =>
      let bullet := s.bullets.getD bi default
      buffer_sprite_draw b bullet_sprite bullet.x bullet.y
        (rgb_to_uint32 128 0 0)) b1
  buffer_sprite_draw b2 player_sprite s.player.x s.player.y
    (rgb_to_uint32 128 0 0)

/-- A live (non-dead) alien. -/
def liveAlien (a : Alien) : Prop := a.type ≠ AlienType.dead

/-- The width of both animation frames of a live alien type in the standard
animations (8, 11 and 12 for types A, B, C). -/
def frameWidthOf : AlienType → Nat
  | .dead => 0
  | .typeA => 8
  | .typeB => 11
  | .typeC => 12

/-- A bullet position `(bx, by)` overlapping the alien `a` under
`sprite_overlap_check` with the 1×3 bullet sprite and the 8-high,
`frameWidthOf`-wide alien frame. -/
def ovl (bx by_ : Nat) (a : Alien) : Prop :=
  bx < a.x + frameWidthOf a.type ∧ a.x < bx + 1 ∧
  by_ < a.y + 8 ∧ a.y < by_ + 3

instance (bx by_ : Nat) (a : Alien) : Decidable (ovl bx by_ a) := by
  unfold ovl; infer_instance

/-- No single bullet position overlaps both aliens while both are live. -/
def NoCo (a b : Alien) : Prop :=
  ∀ bx by_ : Nat,
    ¬(liveAlien a ∧ liveAlien b ∧ ovl bx by_ a ∧ ovl bx by_ b)

/-- Pairwise separation of the alien roster: no bullet position can overlap
two distinct live aliens. -/
def AliensSep (l : List Alien) : Prop := l.Pairwise NoCo

/-- The bullet `b` overlaps no live alien of `l`. -/
def CleanOn (b : Bullet) (l : List Alien) : Prop :=
  ∀ a ∈ l, ¬(liveAlien a ∧ ovl b.x b.y a)

/-- The sprite the hit scan uses for a live alien of type `t`: the current
frame of `anims[typeIdx t - 1]`. -/
def spriteOf (anims : List SpriteAnimation) (t : AlienType) : Option Sprite :=
  (anims[typeIdx t - 1]?).bind fun an =>
    an.frames[an.time / an.frame_duration]?

/-- How one pass of the simulation may change an alien: either untouched,
or a live alien hit this tick: marked dead, `y` kept, `x` shifted left by
`(alien_death_sprite.width - w) / 2` for `w` the width of its current
animation frame. -/
def alienRel (anims : List SpriteAnimation) (a a' : Alien) : Prop :=
  a' = a ∨
  (liveAlien a ∧ ∃ sp, spriteOf anims a.type = some sp ∧
    a' = { a with
           type := .dead
           x := wSub a.x (wSub alien_death_sprite.width sp.width / 2) })

/-- Positional invariant of roster slot `k`: the alien keeps the row's `y`;
while live it keeps the row's type and its initial grid `x`. -/
def AlienPosOK (k : Nat) (a : Alien) : Prop :=
  a.y = 17 * (k / 11) + 128 ∧
  (liveAlien a → a.type = typeOfRow (k / 11) ∧
    a.x = 16 * (k % 11) + 20 +
      (alien_death_sprite.width - frameWidthOf a.type) / 2)

instance (a : Alien) : Decidable (liveAlien a) := by
  unfold liveAlien; infer_instance

instance (k : Nat) (a : Alien) : Decidable (AlienPosOK k a) := by
  unfold AlienPosOK; infer_instance

/-- Positional invariant of the whole roster. -/
def AliensPos (l : List Alien) : Prop :=
  ∀ k, k < l.length → AlienPosOK k (l.getD k default)

/-- The state invariant maintained by the game loop. -/
def Inv (s : GameState) : Prop :=
  s.width = 224 ∧ s.height = 256 ∧
  s.num_aliens = 55 ∧ s.aliens.length = 55 ∧ s.death_counters.length = 55 ∧
  (∃ t, t < 20 ∧ s.animations = stdAnims t) ∧
  s.bullets.length = 128 ∧ s.num_bullets ≤ 128 ∧
  s.player.x ≤ 213 ∧
  AliensPos s.aliens

/-- The advance-and-despawn action of the bullet loop on a single bullet:
`y += dir`, then the bullet disappears exactly when `y >= height` or
`y < bullet_sprite.height`. -/
def advDespawn (height : Nat) (b : Bullet) : Option Bullet :=
  let y' := wAdd b.y b.dir
  if y' ≥ height ∨ y' < bullet_sprite.height then none
  else some { b with y := y' }

/-- Modelled from the spec: the hit scan as §4.4 step 3 describes it, where
"once matched, bullet is removed and alien list scan for that bullet
stops" — identical to `alienScan` except that the first hit ends the
walk over the aliens. -/
def alienScanBreak (anims : List SpriteAnimation) (bi : Nat) :
    List Alien → List Bullet → Nat →
    Except SimErr (List Alien × List Bullet × Nat)
  | [], bullets, n => .ok ([], bullets, n)
  | a :: rest, bullets, n =>
    if a.type = AlienType.dead then
      match alienScanBreak anims bi rest bullets n with
      | .ok (as, bs, m) => .ok (a :: as, bs, m)
      | .error e => .error e
    else
      match anims[typeIdx a.type - 1]? with
      | none => .error .oobAnimations
      | some animation =>
        match animation.frames[animation.time / animation.frame_duration]? with
        | none => .error .oobFrames
        | some alien_sprite =>
          let b := bullets.getD bi default
          if sprite_overlap_check bullet_sprite b.x b.y alien_sprite a.x a.y then
            if n = 0 then .error .oobBullets
            else
              let a' : Alien :=
                { a with
                  type := .dead
                  x := wSub a.x
                    (wSub alien_death_sprite.width alien_sprite.width / 2) }
              .ok (a' :: rest, bullets.set bi (bullets.getD (n - 1) default),
                   n - 1)
          else
            match alienScanBreak anims bi rest bullets n with
            | .ok (as, bs, m) => .ok (a :: as, bs, m)
            | .error e => .error e

/-- The data indices `buffer_sprite_draw buffer sprite x y color` writes:
`p` is hit when some set mask cell `(xi, yi)` targets the in-bounds buffer
position `(sy, sx) = (sprite.height - 1 + y - yi, x + xi)` with
`p = sy * buffer.width + sx`. -/
def drawHits (buffer : Buffer) (sprite : Sprite) (x y : Nat) (p : Nat) : Prop :=
  ∃ xi, xi < sprite.width ∧ ∃ yi, yi < sprite.height ∧
    sprite.data.getD (yi * sprite.width + xi) 0 ≠ 0 ∧
    sprite.height - 1 + y - yi < buffer.height ∧ x + xi < buffer.width ∧
    p = (sprite.height - 1 + y - yi) * buffer.width + (x + xi)

instance (buffer : Buffer) (sprite : Sprite) (x y p : Nat) :
    Decidable (drawHits buffer sprite x y p) := by
  unfold drawHits; infer_instance

/-- A tick with no latched movement and no incoming fire event. -/
def noInput : Input := { move := 0, fireEvent := false }

/-- A state exercising the hit-detection loop with one bullet whose
position overlaps two live aliens: after advancing, the bullet at
`(50, 100)` overlaps both type-A aliens at `(50, 100)`. -/
def c1State : GameState :=
  { width := 224, height := 256, num_aliens := 2, num_bullets := 1,
    aliens := [{ x := 50, y := 100, type := .typeA },
               { x := 50, y := 100, type := .typeA }],
    player := { x := 107, y := 32, life := 3 },
    bullets := [{ x := 50, y := 98, dir := 2 }],
    death_counters := [10, 10], animations := stdAnims 0,
    fire_pressed := false }

/-- The spec's bullet scenario: a bullet at `y = 35` with `dir = +2` in the
256-high game with no aliens. -/
def c5State : GameState :=
  { width := 224, height := 256, num_aliens := 0, num_bullets := 1,
    aliens := [], player := { x := 107, y := 32, life := 3 },
    bullets := [{ x := 50, y := 35, dir := 2 }],
    death_counters := [], animations := stdAnims 0, fire_pressed := false }

/-- A minimal state with the fire latch set, one free bullet slot and no
aliens, for exercising the fire handling. -/
def c6State : GameState :=
  { width := 224, height := 256, num_aliens := 0, num_bullets := 0,
    aliens := [], player := { x := 107, y := 32, life := 3 },
    bullets := [{ x := 0, y := 0, dir := 0 }],
    death_counters := [], animations := stdAnims 0, fire_pressed := true }

/-- The spec's death-counter scenario: a single alien just marked dead with
its counter at the seed value 10. -/
def c7State : GameState :=
  { width := 224, height := 256, num_aliens := 1, num_bullets := 0,
    aliens := [{ x := 20, y := 128, type := .dead }],
    player := { x := 107, y := 32, life := 3 }, bullets := [],
    death_counters := [10], animations := stdAnims 0, fire_pressed := false }

/-! ## Arithmetic helpers -/

theorem wAdd_eq_of_lt {a : Nat} {d : Int} (h0 : 0 ≤ (a : Int) + d)
    (h1 : (a : Int) + d < (W64 : Int)) :
    wAdd a d = ((a : Int) + d).toNat := by
  unfold wAdd
  rw [Int.emod_eq_of_lt h0 h1]

theorem wAdd_pos {a : Nat} {k : Nat} (h : a + k < W64) :
    wAdd a (k : Int) = a + k := by
  rw [wAdd_eq_of_lt (by positivity) (by exact_mod_cast h)]
  exact_mod_cast rfl

theorem wAdd_neg {a k : Nat} (hk : k ≤ a) (h : a < W64) :
    wAdd a (-(k : Int)) = a - k := by
  rw [wAdd_eq_of_lt (by omega) (by omega)]
  omega

theorem wSub_eq {a b : Nat} (hb : b ≤ a) (ha : a < W64) :
    wSub a b = a - b := by
  unfold wSub
  rw [Int.emod_eq_of_lt (by omega) (by omega)]
  omega

/-! ## List access helpers -/

theorem getD_set_self {α : Type} {l : List α} {i : Nat} {v d : α}
    (h : i < l.length) : (l.set i v).getD i d = v := by
  simp [List.getD_eq_getElem?_getD, List.getElem?_set_self h]

theorem getD_set_ne {α : Type} {l : List α} {i j : Nat} {v d : α}
    (h : i ≠ j) : (l.set i v).getD j d = l.getD j d := by
  simp [List.getD_eq_getElem?_getD, List.getElem?_set_ne h]

theorem set_getD_self {α : Type} {l : List α} {i : Nat} {d : α}
    (h : i < l.length) : l.set i (l.getD i d) = l := by
  apply List.ext_getElem (by simp)
  intro n h1 h2
  rcases eq_or_ne i n with rfl | hne
  · simp [List.getElem_set_self, List.getD_eq_getElem?_getD,
      List.getElem?_eq_getElem h]
  · rw [List.getElem_set_ne hne]

theorem getD_map_range {α : Type} {f : Nat → α} {n k : Nat} {d : α}
    (h : k < n) : ((List.range n).map f).getD k d = f k := by
  simp [List.getD_eq_getElem?_getD, List.getElem?_map, List.getElem?_range h]

/-! ## General characterization of the hit scan -/

theorem alienRel_refl (anims : List SpriteAnimation) (a : Alien) :
    alienRel anims a a := Or.inl rfl

theorem alienRel_comp (anims : List SpriteAnimation) {a b c : Alien}
    (h1 : alienRel anims a b) (h2 : alienRel anims b c) :
    alienRel anims a c := by
  rcases h1 with rfl | ⟨hlive, sp, hsp, rfl⟩
  · exact h2
  · rcases h2 with rfl | ⟨hlive2, _, _, _⟩
    · exact Or.inr ⟨hlive, sp, hsp, rfl⟩
    · exact absurd rfl hlive2

theorem forall₂_comp {α : Type} (R : α → α → Prop)
    (hR : ∀ a b c, R a b → R b c → R a c) :
    ∀ {l1 l2 l3 : List α}, List.Forall₂ R l1 l2 → List.Forall₂ R l2 l3 →
      List.Forall₂ R l1 l3 := by
  intro l1 l2 l3 h12
  induction h12 generalizing l3 with
  | nil => intro h; exact h
  | cons hab h12 ih =>
    intro h23
    cases h23 with
    | cons hbc h23 => exact List.Forall₂.cons (hR _ _ _ hab hbc) (ih h23)

theorem forall₂_refl_of {α : Type} {R : α → α → Prop}
    (hR : ∀ a, R a a) (l : List α) : List.Forall₂ R l l := by
  induction l with
  | nil => exact List.Forall₂.nil
  | cons a l ih => exact List.Forall₂.cons (hR a) ih

theorem ok_triple_inj {ε α β γ : Type} {a1 a2 : α} {b1 b2 : β} {c1 c2 : γ}
    (h : (Except.ok (a1, b1, c1) : Except ε (α × β × γ)) = .ok (a2, b2, c2)) :
    a1 = a2 ∧ b1 = b2 ∧ c1 = c2 := by
  have h' := Except.ok.inj h
  exact ⟨congrArg Prod.fst h', congrArg (fun p => p.2.1) h',
    congrArg (fun p => p.2.2) h'⟩

/-- Whatever the hit scan did, when it returns `.ok` the aliens changed only
by `alienRel`, the bullet count did not grow, the bullet array kept its
length, only slot `bi` of the bullet array changed, and the new contents of
slot `bi` came from a live slot. -/
theorem alienScan_ok_char (anims : List SpriteAnimation) (bi : Nat) :
    ∀ (l : List Alien) (bs : List Bullet) (n : Nat) (l' : List Alien)
      (bs' : List Bullet) (n' : Nat),
      alienScan anims bi l bs n = .ok (l', bs', n') →
      List.Forall₂ (alienRel anims) l l' ∧ n' ≤ n ∧
      bs'.length = bs.length ∧
      (∀ j, j ≠ bi → bs'.getD j default = bs.getD j default) ∧
      (bs'.getD bi default = bs.getD bi default ∨
        ∃ j0, j0 < n ∧ bs'.getD bi default = bs.getD j0 default) := by
  intro l
  induction l with
  | nil =>
    intro bs n l' bs' n' h
    simp only [alienScan, Except.ok.injEq, Prod.mk.injEq] at h
    obtain ⟨rfl, rfl, rfl⟩ := h
    exact ⟨List.Forall₂.nil, le_rfl, rfl, fun _ _ => rfl, Or.inl rfl⟩
  | cons a rest ih =>
    intro bs n l' bs' n' h
    simp only [alienScan] at h
    by_cases hdead : a.type = AlienType.dead
    · simp only [hdead, if_pos rfl] at h
      rcases hrec : alienScan anims bi rest bs n with e | ⟨as, bs2, m⟩
      · rw [hrec] at h; simp at h
      · rw [hrec] at h
        obtain ⟨h1, h2, h3⟩ := ok_triple_inj h
        rw [← h1, ← h2, ← h3]
        obtain ⟨hf, hn, hlen, hother, hbi⟩ := ih bs n as bs2 m hrec
        exact ⟨List.Forall₂.cons (alienRel_refl _ _) hf, hn, hlen, hother, hbi⟩
    · simp only [if_neg hdead] at h
      rcases hA : anims[typeIdx a.type - 1]? with _ | animation
      · simp only [hA] at h; exact absurd h (by simp)
      simp only [hA] at h
      rcases hF : animation.frames[animation.time / animation.frame_duration]?
        with _ | alien_sprite
      · simp only [hF] at h; exact absurd h (by simp)
      simp only [hF] at h
      by_cases hovl : sprite_overlap_check bullet_sprite
          (bs.getD bi default).x (bs.getD bi default).y alien_sprite a.x a.y
      · rw [if_pos hovl] at h
        by_cases hn0 : n = 0
        · rw [if_pos hn0] at h; simp at h
        · rw [if_neg hn0] at h
          rcases hrec : alienScan anims bi rest
              (bs.set bi (bs.getD (n - 1) default)) (n - 1)
            with e | ⟨as, bs2, m⟩
          · rw [hrec] at h; simp at h
          · rw [hrec] at h
            obtain ⟨h1, h2, h3⟩ := ok_triple_inj h
            rw [← h1, ← h2, ← h3]
            obtain ⟨hf, hn, hlen, hother, hbi⟩ := ih _ _ as bs2 m hrec
            have hsp : spriteOf anims a.type = some alien_sprite := by
              simp [spriteOf, hA, hF]
            refine ⟨List.Forall₂.cons (Or.inr ⟨hdead, alien_sprite, hsp, rfl⟩) hf,
              by omega, by simpa using hlen, ?_, ?_⟩
            · intro j hj
              rw [hother j hj, getD_set_ne (Ne.symm hj)]
            · rcases hbi with hbi | ⟨j0, hj0, hbi⟩
              · by_cases hbl : bi < bs.length
                · right
                  exact ⟨n - 1, by omega, by rw [hbi, getD_set_self hbl]⟩
                · left
                  rw [hbi]
                  rw [List.set_eq_of_length_le (by omega)]
              · by_cases hj0bi : j0 = bi
                · subst hj0bi
                  by_cases hbl : j0 < bs.length
                  · right
                    exact ⟨n - 1, by omega, by rw [hbi, getD_set_self hbl]⟩
                  · left
                    rw [hbi, List.set_eq_of_length_le (by omega)]
                · right
                  exact ⟨j0, by omega, by rw [hbi, getD_set_ne (Ne.symm hj0bi)]⟩
      · rw [if_neg hovl] at h
        rcases hrec : alienScan anims bi rest bs n with e | ⟨as, bs2, m⟩
        · rw [hrec] at h; simp at h
        · rw [hrec] at h
          obtain ⟨h1, h2, h3⟩ := ok_triple_inj h
          rw [← h1, ← h2, ← h3]
          obtain ⟨hf, hn, hlen, hother, hbi⟩ := ih bs n as bs2 m hrec
          exact ⟨List.Forall₂.cons (alienRel_refl _ _) hf, hn, hlen, hother, hbi⟩

/-! ## Safety of the hit scan on separated rosters -/

theorem stdAnims_lookup {t : Nat} (ht : t < 20) (τ : AlienType)
    (hτ : ¬ τ = AlienType.dead) :
    ∃ an sp, (stdAnims t)[typeIdx τ - 1]? = some an ∧
      an.frames[an.time / an.frame_duration]? = some sp ∧
      sp.width = frameWidthOf τ ∧ sp.height = 8 := by
  have hdiv : t / 10 = 0 ∨ t / 10 = 1 := by omega
  cases τ with
  | dead => exact absurd rfl hτ
  | typeA =>
    rcases hdiv with h | h
    · exact ⟨(⟨true, 2, 10, t, [alien_sprite0, alien_sprite1]⟩ : SpriteAnimation), alien_sprite0,
        by simp [stdAnims, typeIdx], by simp [h], rfl, rfl⟩
    · exact ⟨(⟨true, 2, 10, t, [alien_sprite0, alien_sprite1]⟩ : SpriteAnimation), alien_sprite1,
        by simp [stdAnims, typeIdx], by simp [h], rfl, rfl⟩
  | typeB =>
    rcases hdiv with h | h
    · exact ⟨(⟨true, 2, 10, t, [alien_sprite2, alien_sprite3]⟩ : SpriteAnimation), alien_sprite2,
        by simp [stdAnims, typeIdx], by simp [h], rfl, rfl⟩
    · exact ⟨(⟨true, 2, 10, t, [alien_sprite2, alien_sprite3]⟩ : SpriteAnimation), alien_sprite3,
        by simp [stdAnims, typeIdx], by simp [h], rfl, rfl⟩
  | typeC =>
    rcases hdiv with h | h
    · exact ⟨(⟨true, 2, 10, t, [alien_sprite4, alien_sprite5]⟩ : SpriteAnimation), alien_sprite4,
        by simp [stdAnims, typeIdx], by simp [h], rfl, rfl⟩
    · exact ⟨(⟨true, 2, 10, t, [alien_sprite4, alien_sprite5]⟩ : SpriteAnimation), alien_sprite5,
        by simp [stdAnims, typeIdx], by simp [h], rfl, rfl⟩

theorem overlap_iff_ovl {sp : Sprite} {τ : AlienType}
    (hw : sp.width = frameWidthOf τ) (hh : sp.height = 8)
    (bx by_ ax ay : Nat) :
    sprite_overlap_check bullet_sprite bx by_ sp ax ay ↔
      ovl bx by_ { x := ax, y := ay, type := τ } := by
  simp only [sprite_overlap_check, ovl, bullet_sprite, hw, hh, gt_iff_lt]

theorem forall₂_getElem {α : Type} {R : α → α → Prop} :
    ∀ {l l' : List α}, List.Forall₂ R l l' →
      ∀ i (hi : i < l.length) (hi' : i < l'.length), R l[i] l'[i] := by
  intro l l' h
  induction h with
  | nil => intro i hi _; exact absurd hi (by simp)
  | cons hab htail ih =>
    intro i hi hi'
    cases i with
    | zero => exact hab
    | succ i => exact ih i (by simpa using hi) (by simpa using hi')

theorem sep_transport {anims : List SpriteAnimation} {l l' : List Alien}
    (hf : List.Forall₂ (alienRel anims) l l') (hsep : AliensSep l) :
    AliensSep l' := by
  have hlen := hf.length_eq
  rw [AliensSep, List.pairwise_iff_getElem] at hsep ⊢
  intro i j hi hj hij bx by_ hcontra
  obtain ⟨hli, hlj, hovi, hovj⟩ := hcontra
  have ri := forall₂_getElem hf i (by omega) hi
  have rj := forall₂_getElem hf j (by omega) hj
  rcases ri with ri | ⟨_, _, _, ri⟩
  · rcases rj with rj | ⟨_, _, _, rj⟩
    · rw [ri] at hli hovi
      rw [rj] at hlj hovj
      exact hsep i j (by omega) (by omega) hij bx by_ ⟨hli, hlj, hovi, hovj⟩
    · rw [rj] at hlj
      exact hlj rfl
  · rw [ri] at hli
    exact hli rfl

theorem frameWidthOf_live {τ : AlienType} (hτ : ¬ τ = AlienType.dead) :
    frameWidthOf τ = 8 ∨ frameWidthOf τ = 11 ∨ frameWidthOf τ = 12 := by
  cases τ with
  | dead => exact absurd rfl hτ
  | typeA => exact Or.inl rfl
  | typeB => exact Or.inr (Or.inl rfl)
  | typeC => exact Or.inr (Or.inr rfl)

theorem getD_eq_getElem {α : Type} {l : List α} {i : Nat} {d : α}
    (h : i < l.length) : l.getD i d = l[i] := by
  simp [List.getD_eq_getElem?_getD, List.getElem?_eq_getElem h]

/-- No bullet position can overlap two distinct live aliens of a roster
that satisfies the positional invariant: live aliens sit on the initial
grid, whose cells are 16 apart horizontally and 17 apart vertically while
the hit boxes are at most 12 wide and exactly 8 tall. -/
theorem aliensPos_sep {l : List Alien} (_hlen : l.length = 55)
    (hpos : AliensPos l) : AliensSep l := by
  rw [AliensSep, List.pairwise_iff_getElem]
  intro i j hi hj hij bx by_ hcontra
  obtain ⟨hli, hlj, hovi, hovj⟩ := hcontra
  obtain ⟨hyi, hposi⟩ := hpos i hi
  obtain ⟨hyj, hposj⟩ := hpos j hj
  rw [getD_eq_getElem hi] at hyi hposi
  rw [getD_eq_getElem hj] at hyj hposj
  obtain ⟨hti, hxi⟩ := hposi hli
  obtain ⟨htj, hxj⟩ := hposj hlj
  have hds : alien_death_sprite.width = 13 := rfl
  rw [hds] at hxi hxj
  obtain ⟨ho1i, ho2i, ho3i, ho4i⟩ := hovi
  obtain ⟨ho1j, ho2j, ho3j, ho4j⟩ := hovj
  by_cases hrow : i / 11 = j / 11
  · -- same row: same type and width, columns at least 16 apart
    have hcol : i % 11 ≠ j % 11 := by omega
    have htij : l[i].type = l[j].type := by rw [hti, htj, hrow]
    rcases frameWidthOf_live hli with hw | hw | hw <;>
      rw [hw] at hxi ho1i <;>
      rw [htij] at hw <;>
      rw [hw] at hxj ho1j <;>
      omega
  · -- different rows: vertical windows at least 17 apart, 10 tall
    omega

/-- On a separated roster the hit scan never goes out of bounds: entering
with the bullet index below the live count (or at it with a clean slot
value), it returns `.ok` and the live count never drops below the bullet
index — each removal that reaches `num_bullets = bi + 1` happens through a
self-copy of the slot, whose bullet has just consumed the only live alien
it overlapped. -/
theorem alienScan_safe {t : Nat} (ht : t < 20) (bi : Nat) :
    ∀ (l : List Alien) (bs : List Bullet) (n : Nat),
      AliensSep l → bi < bs.length →
      (bi < n ∨ (bi = n ∧ CleanOn (bs.getD bi default) l)) →
      ∃ l' bs' n', alienScan (stdAnims t) bi l bs n = .ok (l', bs', n') ∧
        bi ≤ n' := by
  intro l
  induction l with
  | nil =>
    intro bs n _ _ hentry
    exact ⟨[], bs, n, rfl, by rcases hentry with h | ⟨h, _⟩ <;> omega⟩
  | cons a rest ih =>
    intro bs n hsep hbl hentry
    rcases List.pairwise_cons.mp hsep with ⟨hhead, htail⟩
    by_cases hdead : a.type = AlienType.dead
    · have hclean : bi < n ∨ (bi = n ∧ CleanOn (bs.getD bi default) rest) := by
        rcases hentry with h | ⟨h1, h2⟩
        · exact Or.inl h
        · exact Or.inr ⟨h1, fun a2 ha2 => h2 a2 (List.mem_cons_of_mem _ ha2)⟩
      obtain ⟨l', bs', n', hrec, hn'⟩ := ih bs n htail hbl hclean
      exact ⟨a :: l', bs', n', by simp [alienScan, hdead, hrec], hn'⟩
    · obtain ⟨an, sp, hA, hF, hw, hh⟩ := stdAnims_lookup ht a.type hdead
      by_cases hovl : sprite_overlap_check bullet_sprite (bs.getD bi default).x
          (bs.getD bi default).y sp a.x a.y
      · -- the head alien is hit
        have hovl' : ovl (bs.getD bi default).x (bs.getD bi default).y a :=
          (overlap_iff_ovl hw hh _ _ a.x a.y).mp hovl
        have hn0 : bi < n := by
          rcases hentry with h | ⟨h1, h2⟩
          · exact h
          · exact absurd ⟨hdead, hovl'⟩ (h2 a (List.mem_cons_self a rest))
        have hset_len : bi < (bs.set bi (bs.getD (n - 1) default)).length := by
          simpa using hbl
        have hclean2 : bi < n - 1 ∨ (bi = n - 1 ∧
            CleanOn ((bs.set bi (bs.getD (n - 1) default)).getD bi default)
              rest) := by
          rcases Nat.lt_or_ge bi (n - 1) with h | h
          · exact Or.inl h
          · have hbieq : bi = n - 1 := by omega
            refine Or.inr ⟨hbieq, ?_⟩
            have hv : (bs.set bi (bs.getD (n - 1) default)).getD bi default =
                bs.getD bi default := by
              rw [getD_set_self hbl, ← hbieq]
            rw [hv]
            intro a2 ha2 hcon
            obtain ⟨hlive2, hovl2⟩ := hcon
            exact hhead a2 ha2 _ _ ⟨hdead, hlive2, hovl', hovl2⟩
        obtain ⟨l', bs', n', hrec, hn'⟩ := ih _ _ htail hset_len hclean2
        refine ⟨{ a with
            type := .dead
            x := wSub a.x (wSub alien_death_sprite.width sp.width / 2) } :: l',
          bs', n', ?_, by omega⟩
        have hne : ¬ n = 0 := by omega
        simp only [alienScan]
        rw [if_neg hdead]
        simp only [hA, hF]
        rw [if_pos hovl, if_neg hne]
        simp only [hrec]
      · have hclean : bi < n ∨ (bi = n ∧ CleanOn (bs.getD bi default) rest) := by
          rcases hentry with h | ⟨h1, h2⟩
          · exact Or.inl h
          · exact Or.inr ⟨h1, fun a2 ha2 => h2 a2 (List.mem_cons_of_mem _ ha2)⟩
        obtain ⟨l', bs', n', hrec, hn'⟩ := ih bs n htail hbl hclean
        refine ⟨a :: l', bs', n', ?_, hn'⟩
        simp only [alienScan]
        rw [if_neg hdead]
        simp only [hA, hF]
        rw [if_neg hovl]
        simp only [hrec]

/-! ## The bullet simulation loop -/

theorem bulletLoopGo_ok_char (height : Nat) (anims : List SpriteAnimation) :
    ∀ (fuel bi : Nat) (st st' : ScanState),
      bulletLoopGo height anims fuel bi st = .ok st' →
      List.Forall₂ (alienRel anims) st.aliens st'.aliens ∧
      st'.bullets.length = st.bullets.length ∧
      st'.num_bullets ≤ st.num_bullets := by
  intro fuel
  induction fuel with
  | zero =>
    intro bi st st' h
    exact absurd h (by simp [bulletLoopGo])
  | succ fuel ih =>
    intro bi st st' h
    simp only [bulletLoopGo] at h
    by_cases hlt : bi < st.num_bullets
    · rw [if_pos hlt] at h
      by_cases hdesp : wAdd (st.bullets.getD bi default).y
            (st.bullets.getD bi default).dir ≥ height ∨
          wAdd (st.bullets.getD bi default).y
            (st.bullets.getD bi default).dir < bullet_sprite.height
      · rw [if_pos hdesp] at h
        obtain ⟨hf, hlen, hn⟩ := ih bi _ st' h
        refine ⟨hf, by simpa using hlen, ?_⟩
        have hn' : st'.num_bullets ≤ st.num_bullets - 1 := hn
        omega
      · rw [if_neg hdesp] at h
        rcases hscan : alienScan anims bi st.aliens
            (st.bullets.set bi
              { st.bullets.getD bi default with
                y := wAdd (st.bullets.getD bi default).y
                  (st.bullets.getD bi default).dir }) st.num_bullets
          with e | ⟨as, bs2, m⟩
        · rw [hscan] at h
          exact absurd h (by simp)
        · rw [hscan] at h
          obtain ⟨hf1, hm, hlen1, _, _⟩ :=
            alienScan_ok_char anims bi _ _ _ _ _ _ hscan
          obtain ⟨hf2, hlen2, hn2⟩ := ih (bi + 1) _ st' h
          refine ⟨forall₂_comp (alienRel anims)
              (fun _ _ _ h1 h2 => alienRel_comp anims h1 h2) hf1 hf2, ?_, ?_⟩
          · rw [hlen2]
            simpa using hlen1
          · have hn2' : st'.num_bullets ≤ m := hn2
            omega
    · rw [if_neg hlt] at h
      obtain rfl : st = st' := Except.ok.inj h
      exact ⟨forall₂_refl_of (alienRel_refl anims) _, rfl, le_rfl⟩

theorem bulletLoopGo_safe {t : Nat} (ht : t < 20) (height : Nat) :
    ∀ (fuel bi : Nat) (st : ScanState),
      st.num_bullets - bi < fuel →
      AliensSep st.aliens → st.bullets.length = 128 → st.num_bullets ≤ 128 →
      ∃ st', bulletLoopGo height (stdAnims t) fuel bi st = .ok st' := by
  intro fuel
  induction fuel with
  | zero =>
    intro bi st hfuel _ _ _
    omega
  | succ fuel ih =>
    intro bi st hfuel hsep hblen hnle
    by_cases hlt : bi < st.num_bullets
    · by_cases hdesp : wAdd (st.bullets.getD bi default).y
            (st.bullets.getD bi default).dir ≥ height ∨
          wAdd (st.bullets.getD bi default).y
            (st.bullets.getD bi default).dir < bullet_sprite.height
      · obtain ⟨st', h'⟩ := ih bi
          ⟨st.aliens,
           (st.bullets.set bi
              { st.bullets.getD bi default with
                y := wAdd (st.bullets.getD bi default).y
                  (st.bullets.getD bi default).dir }).set bi
             ((st.bullets.set bi
                { st.bullets.getD bi default with
                  y := wAdd (st.bullets.getD bi default).y
                    (st.bullets.getD bi default).dir }).getD
               (st.num_bullets - 1) default),
           st.num_bullets - 1⟩
          (show st.num_bullets - 1 - bi < fuel by omega) hsep
          (by simpa using hblen) (show st.num_bullets - 1 ≤ 128 by omega)
        refine ⟨st', ?_⟩
        simp only [bulletLoopGo]
        rw [if_pos hlt, if_pos hdesp]
        exact h'
      · have hbl1 : bi < (st.bullets.set bi
            { st.bullets.getD bi default with
              y := wAdd (st.bullets.getD bi default).y
                (st.bullets.getD bi default).dir }).length := by
          simp [hblen]
          omega
        obtain ⟨l', bs', n', hscan, hbin'⟩ :=
          alienScan_safe ht bi st.aliens _ st.num_bullets hsep hbl1
            (Or.inl hlt)
        obtain ⟨hf1, hm, hlen1, _, _⟩ :=
          alienScan_ok_char (stdAnims t) bi _ _ _ _ _ _ hscan
        obtain ⟨st', h'⟩ := ih (bi + 1) ⟨l', bs', n'⟩
          (show n' - (bi + 1) < fuel by omega)
          (sep_transport hf1 hsep)
          (show bs'.length = 128 by rw [hlen1]; simpa using hblen)
          (show n' ≤ 128 by omega)
        refine ⟨st', ?_⟩
        simp only [bulletLoopGo]
        rw [if_pos hlt, if_neg hdesp, hscan]
        exact h'
    · refine ⟨st, ?_⟩
      simp only [bulletLoopGo]
      rw [if_neg hlt]

/-! ## The full tick -/

/-- Decomposition of a successful tick into its phases. -/
theorem stepTick_ok_char {i : Input} {s s' : GameState}
    (h : stepTick i s = .ok s') :
    ∃ st : ScanState,
      alienCountdown s.num_aliens s.aliens s.death_counters =
        .ok s'.death_counters ∧
      bulletLoop s.height (s.animations.map animAdvance)
        ⟨s.aliens, s.bullets, s.num_bullets⟩ = .ok st ∧
      s'.aliens = st.aliens ∧
      s'.player = playerMove s.width i.move s.player ∧
      s'.bullets = (fireStep s.fire_pressed s'.player st.bullets
        st.num_bullets).1 ∧
      s'.num_bullets = (fireStep s.fire_pressed s'.player st.bullets
        st.num_bullets).2 ∧
      s'.animations = s.animations.map animAdvance ∧
      s'.fire_pressed = i.fireEvent ∧
      s'.width = s.width ∧ s'.height = s.height ∧
      s'.num_aliens = s.num_aliens := by
  rcases hdc : alienCountdown s.num_aliens s.aliens s.death_counters
    with e | dc
  · simp only [stepTick, hdc] at h
    exact absurd h (by simp)
  · simp only [stepTick, hdc] at h
    rcases hloop : bulletLoop s.height (s.animations.map animAdvance)
        ⟨s.aliens, s.bullets, s.num_bullets⟩ with e | st
    · rw [hloop] at h; exact absurd h (by simp)
    · rw [hloop] at h
      obtain rfl : _ = s' := Except.ok.inj h
      exact ⟨st, rfl, rfl, rfl, rfl, rfl, rfl, rfl, rfl, rfl, rfl, rfl⟩

theorem stdAnims_map_advance (t : Nat) :
    (stdAnims t).map animAdvance =
      stdAnims (if t + 1 = 20 then 0 else t + 1) := by
  by_cases h : t + 1 = 20 <;> simp [stdAnims, animAdvance, h]

theorem alienCountdown_char (na : Nat) (aliens : List Alien) (dc : List Nat)
    (h1 : na ≤ aliens.length) (h2 : na ≤ dc.length) :
    ∃ dc', alienCountdown na aliens dc = .ok dc' ∧
      dc'.length = dc.length ∧
      ∀ k, k < dc.length → dc'.getD k 0 =
        (if k < na ∧ (aliens.getD k default).type = AlienType.dead ∧
            dc.getD k 0 ≠ 0 then dc.getD k 0 - 1 else dc.getD k 0) := by
  refine ⟨_, by rw [alienCountdown, if_pos ⟨h1, h2⟩], by simp, ?_⟩
  intro k hk
  rw [getD_map_range hk]

/-! ## Player movement -/

theorem playerMove_zero (w : Nat) (p : Player) : playerMove w 0 p = p := by
  simp [playerMove]

theorem playerMove_right {p : Player} (hx : p.x ≤ 213) :
    playerMove 224 1 p =
      { p with x := if 224 ≤ p.x + 13 then 213 else p.x + 2 } := by
  have hpw : player_sprite.width = 11 := rfl
  have hW : (300 : Nat) < W64 := by norm_num [W64]
  have h2 : (2 : Int) * 1 = ((2 : Nat) : Int) := by norm_num
  have hc1 : wAdd (p.x + player_sprite.width) (2 * 1) = p.x + 13 := by
    rw [h2, wAdd_pos (by rw [hpw]; omega), hpw]
  simp only [playerMove]
  rw [if_pos (by norm_num), hc1]
  by_cases hge : 224 ≤ p.x + 13
  · rw [if_pos hge, if_pos hge]
    simp [hpw]
  · rw [if_neg hge, if_neg hge, if_neg (show ¬ ((p.x : Int) + 2 * 1 ≤ 0) by
      omega)]
    rw [h2, wAdd_pos (by omega)]

theorem playerMove_left {p : Player} (hx : p.x ≤ 213) :
    playerMove 224 (-1) p =
      { p with x := if p.x ≤ 2 then 0 else p.x - 2 } := by
  have hpw : player_sprite.width = 11 := rfl
  have hW : (300 : Nat) < W64 := by norm_num [W64]
  have h2 : (2 : Int) * (-1) = -((2 : Nat) : Int) := by norm_num
  have hc1 : wAdd (p.x + player_sprite.width) (2 * (-1)) = p.x + 9 := by
    rw [h2, wAdd_neg (by rw [hpw]; omega) (by rw [hpw]; omega), hpw]
    omega
  simp only [playerMove]
  rw [if_pos (by norm_num), hc1,
    if_neg (show ¬ (p.x + 9 ≥ 224) by omega)]
  by_cases hle : p.x ≤ 2
  · rw [if_pos (show (p.x : Int) + 2 * (-1) ≤ 0 by omega), if_pos hle]
  · rw [if_neg (show ¬ ((p.x : Int) + 2 * (-1) ≤ 0) by omega), if_neg hle]
    rw [h2, wAdd_neg (by omega) (by omega)]

theorem playerMove_x_le {d : Int} (hd : d = -1 ∨ d = 0 ∨ d = 1) {p : Player}
    (hx : p.x ≤ 213) : (playerMove 224 d p).x ≤ 213 := by
  rcases hd with rfl | rfl | rfl
  · rw [playerMove_left hx]
    by_cases h : p.x ≤ 2 <;> simp [h] <;> omega
  · rw [playerMove_zero]; exact hx
  · rw [playerMove_right hx]
    by_cases h : 224 ≤ p.x + 13 <;> simp [h] <;> omega

/-! ## Invariant preservation and reachability -/

theorem pos_transport {anims : List SpriteAnimation} {l l' : List Alien}
    (hf : List.Forall₂ (alienRel anims) l l') (hpos : AliensPos l) :
    AliensPos l' := by
  intro k hk
  have hlen := hf.length_eq
  have hk' : k < l.length := by omega
  have hrel := forall₂_getElem hf k hk' hk
  have hOK := hpos k hk'
  rw [getD_eq_getElem hk'] at hOK
  rw [getD_eq_getElem hk]
  rcases hrel with heq | ⟨hlive, sp, hsp, heq⟩
  · rw [heq]; exact hOK
  · rw [heq]
    exact ⟨hOK.1, fun hlive' => absurd rfl hlive'⟩

theorem inv_step {s : GameState} {i : Input} (hs : Inv s)
    (hi : ValidInput i) : ∃ s', stepTick i s = .ok s' ∧ Inv s' := by
  obtain ⟨hw, hh, hna, hal, hdcl, ⟨t, ht, hanim⟩, hbl, hnb, hpx, hpos⟩ := hs
  obtain ⟨dc', hdc, hdcl', hdcr⟩ :=
    alienCountdown_char s.num_aliens s.aliens s.death_counters
      (by omega) (by omega)
  have hsep := aliensPos_sep hal hpos
  have ht2 : (if t + 1 = 20 then 0 else t + 1) < 20 := by
    by_cases h : t + 1 = 20 <;> simp [h] <;> omega
  have hanims' : s.animations.map animAdvance =
      stdAnims (if t + 1 = 20 then 0 else t + 1) := by
    rw [hanim, stdAnims_map_advance]
  obtain ⟨st, hloop⟩ := bulletLoopGo_safe ht2 s.height (s.num_bullets + 1) 0
    ⟨s.aliens, s.bullets, s.num_bullets⟩
    (show s.num_bullets - 0 < s.num_bullets + 1 by omega) hsep hbl hnb
  obtain ⟨hf, hblen', hnle'⟩ := bulletLoopGo_ok_char s.height _ _ _ _ _ hloop
  have hloop2 : bulletLoop s.height (s.animations.map animAdvance)
      ⟨s.aliens, s.bullets, s.num_bullets⟩ = .ok st := by
    rw [bulletLoop, hanims']
    exact hloop
  refine ⟨{ s with
      animations := s.animations.map animAdvance
      death_counters := dc'
      aliens := st.aliens
      bullets := (fireStep s.fire_pressed
        (playerMove s.width i.move s.player) st.bullets st.num_bullets).1
      num_bullets := (fireStep s.fire_pressed
        (playerMove s.width i.move s.player) st.bullets st.num_bullets).2
      player := playerMove s.width i.move s.player
      fire_pressed := i.fireEvent }, ?_, ?_⟩
  · simp only [stepTick, hdc, hloop2]
  have hfl := hf.length_eq
  have hblen128 : st.bullets.length = 128 := by rw [hblen']; exact hbl
  have hnle128 : st.num_bullets ≤ s.num_bullets := hnle'
  have hple : (playerMove s.width i.move s.player).x ≤ 213 := by
    rw [hw]
    exact playerMove_x_le hi hpx
  refine ⟨hw, hh, hna, ?_, by rw [hdcl']; exact hdcl, ?_, ?_, ?_, hple, ?_⟩
  · simpa using (hfl ▸ hal)
  · exact ⟨if t + 1 = 20 then 0 else t + 1, ht2, by simpa using hanims'⟩
  · show (fireStep s.fire_pressed _ st.bullets st.num_bullets).1.length = 128
    rw [fireStep]
    by_cases hfire : s.fire_pressed = true ∧ st.num_bullets < GAME_MAX_BULLETS
    · rw [if_pos (by simpa using hfire)]
      simp only [List.length_set]
      exact hblen128
    · rw [if_neg (by simpa using hfire)]
      exact hblen128
  · show (fireStep s.fire_pressed _ st.bullets st.num_bullets).2 ≤ 128
    rw [fireStep]
    by_cases hfire : s.fire_pressed = true ∧ st.num_bullets < GAME_MAX_BULLETS
    · rw [if_pos (by simpa using hfire)]
      have h128 : st.num_bullets < 128 := hfire.2
      omega
    · rw [if_neg (by simpa using hfire)]
      show st.num_bullets ≤ 128
      omega
  · exact pos_transport hf hpos

/-- Every reachable state satisfies the invariant. -/
theorem reachable_inv {s : GameState} (h : Reachable s) : Inv s := by
  induction h with
  | init =>
    refine ⟨rfl, rfl, rfl, by simp [initState], by simp [initState],
      ⟨0, by omega, rfl⟩, by simp [initState], by simp [initState],
      by simp [initState], ?_⟩
    intro k hk
    simp only [initState, List.length_map, List.length_range] at hk ⊢
    rw [getD_map_range hk]
    revert k
    decide
  | step hr hvalid hstep ih =>
    obtain ⟨s'', hok, hinv⟩ := inv_step ih hvalid
    rw [hstep] at hok
    obtain rfl := Except.ok.inj hok
    exact hinv

/-! ## Pixel-exact characterization of sprite drawing -/

theorem drawCell_dims (sprite : Sprite) (x y color xi : Nat) (b : Buffer)
    (yi : Nat) :
    (drawCell sprite x y color xi b yi).width = b.width ∧
    (drawCell sprite x y color xi b yi).height = b.height ∧
    (drawCell sprite x y color xi b yi).data.length = b.data.length := by
  simp only [drawCell]
  split <;> simp

theorem idx_lt {sy sx W H : Nat} (hsy : sy < H) (hsx : sx < W) :
    sy * W + sx < W * H := by
  have h1 : (sy + 1) * W = sy * W + W := Nat.succ_mul sy W
  have h2 : (sy + 1) * W ≤ H * W := Nat.mul_le_mul_right W hsy
  have h3 : H * W = W * H := Nat.mul_comm H W
  omega

theorem drawCell_getD (sprite : Sprite) (x y color xi : Nat) (b : Buffer)
    (yi : Nat) (hL : b.data.length = b.width * b.height) (p : Nat) :
    (drawCell sprite x y color xi b yi).data.getD p 0 =
      if sprite.data.getD (yi * sprite.width + xi) 0 ≠ 0 ∧
          sprite.height - 1 + y - yi < b.height ∧ x + xi < b.width ∧
          p = (sprite.height - 1 + y - yi) * b.width + (x + xi) then color
      else b.data.getD p 0 := by
  simp only [drawCell]
  by_cases hc : sprite.data.getD (yi * sprite.width + xi) 0 ≠ 0 ∧
      sprite.height - 1 + y - yi < b.height ∧ x + xi < b.width
  · rw [if_pos hc]
    by_cases hp : p = (sprite.height - 1 + y - yi) * b.width + (x + xi)
    · rw [if_pos ⟨hc.1, hc.2.1, hc.2.2, hp⟩]
      show (b.data.set _ color).getD p 0 = color
      rw [hp]
      exact getD_set_self (by rw [hL]; exact idx_lt hc.2.1 hc.2.2)
    · rw [if_neg (fun hcontra => hp hcontra.2.2.2)]
      exact getD_set_ne (fun h => hp h.symm)
  · rw [if_neg hc,
      if_neg (fun hcontra => hc ⟨hcontra.1, hcontra.2.1, hcontra.2.2.1⟩)]

theorem foldl_drawCell_char (sprite : Sprite) (x y color xi : Nat) :
    ∀ (l : List Nat) (b : Buffer), b.data.length = b.width * b.height →
      ((l.foldl (drawCell sprite x y color xi) b).width = b.width ∧
       (l.foldl (drawCell sprite x y color xi) b).height = b.height ∧
       (l.foldl (drawCell sprite x y color xi) b).data.length =
         b.data.length) ∧
      ∀ p, (l.foldl (drawCell sprite x y color xi) b).data.getD p 0 =
        if ∃ yi ∈ l, sprite.data.getD (yi * sprite.width + xi) 0 ≠ 0 ∧
            sprite.height - 1 + y - yi < b.height ∧ x + xi < b.width ∧
            p = (sprite.height - 1 + y - yi) * b.width + (x + xi) then color
        else b.data.getD p 0 := by
  intro l
  induction l with
  | nil =>
    intro b hL
    exact ⟨⟨rfl, rfl, rfl⟩, fun p => by simp⟩
  | cons yi l ih =>
    intro b hL
    obtain ⟨h1, h2, h3⟩ := drawCell_dims sprite x y color xi b yi
    obtain ⟨hd, hg⟩ := ih (drawCell sprite x y color xi b yi)
      (by rw [h3, h1, h2]; exact hL)
    constructor
    · exact ⟨by rw [List.foldl_cons, hd.1, h1],
        by rw [List.foldl_cons, hd.2.1, h2],
        by rw [List.foldl_cons, hd.2.2, h3]⟩
    · intro p
      rw [List.foldl_cons, hg p, h1, h2,
        drawCell_getD sprite x y color xi b yi hL p]
      by_cases hE : ∃ yi2 ∈ l, sprite.data.getD (yi2 * sprite.width + xi) 0 ≠ 0 ∧
          sprite.height - 1 + y - yi2 < b.height ∧ x + xi < b.width ∧
          p = (sprite.height - 1 + y - yi2) * b.width + (x + xi)
      · rw [if_pos hE]
        obtain ⟨w, hwl, hw⟩ := hE
        rw [if_pos ⟨w, List.mem_cons_of_mem _ hwl, hw⟩]
      · rw [if_neg hE]
        by_cases hC : sprite.data.getD (yi * sprite.width + xi) 0 ≠ 0 ∧
            sprite.height - 1 + y - yi < b.height ∧ x + xi < b.width ∧
            p = (sprite.height - 1 + y - yi) * b.width + (x + xi)
        · rw [if_pos hC, if_pos ⟨yi, List.mem_cons_self yi l, hC⟩]
        · have hno : ¬ ∃ yi2 ∈ yi :: l,
              sprite.data.getD (yi2 * sprite.width + xi) 0 ≠ 0 ∧
              sprite.height - 1 + y - yi2 < b.height ∧ x + xi < b.width ∧
              p = (sprite.height - 1 + y - yi2) * b.width + (x + xi) := by
            rintro ⟨w, hwmem, hw⟩
            rcases List.mem_cons.mp hwmem with rfl | hwl
            · exact hC hw
            · exact hE ⟨w, hwl, hw⟩
          rw [if_neg hC, if_neg hno]

theorem drawColumn_dims (sprite : Sprite) (x y color : Nat) (b : Buffer)
    (xi : Nat) (hL : b.data.length = b.width * b.height) :
    (drawColumn sprite x y color b xi).width = b.width ∧
    (drawColumn sprite x y color b xi).height = b.height ∧
    (drawColumn sprite x y color b xi).data.length = b.data.length :=
  (foldl_drawCell_char sprite x y color xi (List.range sprite.height) b hL).1

theorem drawColumn_getD (sprite : Sprite) (x y color : Nat) (b : Buffer)
    (xi : Nat) (hL : b.data.length = b.width * b.height) (p : Nat) :
    (drawColumn sprite x y color b xi).data.getD p 0 =
      if ∃ yi ∈ List.range sprite.height,
          sprite.data.getD (yi * sprite.width + xi) 0 ≠ 0 ∧
          sprite.height - 1 + y - yi < b.height ∧ x + xi < b.width ∧
          p = (sprite.height - 1 + y - yi) * b.width + (x + xi) then color
      else b.data.getD p 0 :=
  (foldl_drawCell_char sprite x y color xi (List.range sprite.height) b hL).2 p

theorem foldl_drawColumn_char (sprite : Sprite) (x y color : Nat) :
    ∀ (l : List Nat) (b : Buffer), b.data.length = b.width * b.height →
      ((l.foldl (drawColumn sprite x y color) b).width = b.width ∧
       (l.foldl (drawColumn sprite x y color) b).height = b.height ∧
       (l.foldl (drawColumn sprite x y color) b).data.length =
         b.data.length) ∧
      ∀ p, (l.foldl (drawColumn sprite x y color) b).data.getD p 0 =
        if ∃ xi ∈ l, ∃ yi ∈ List.range sprite.height,
            sprite.data.getD (yi * sprite.width + xi) 0 ≠ 0 ∧
            sprite.height - 1 + y - yi < b.height ∧ x + xi < b.width ∧
            p = (sprite.height - 1 + y - yi) * b.width + (x + xi) then color
        else b.data.getD p 0 := by
  intro l
  induction l with
  | nil =>
    intro b hL
    exact ⟨⟨rfl, rfl, rfl⟩, fun p => by simp⟩
  | cons xi l ih =>
    intro b hL
    obtain ⟨h1, h2, h3⟩ := drawColumn_dims sprite x y color b xi hL
    obtain ⟨hd, hg⟩ := ih (drawColumn sprite x y color b xi)
      (by rw [h3, h1, h2]; exact hL)
    constructor
    · exact ⟨by rw [List.foldl_cons, hd.1, h1],
        by rw [List.foldl_cons, hd.2.1, h2],
        by rw [List.foldl_cons, hd.2.2, h3]⟩
    · intro p
      rw [List.foldl_cons, hg p, h1, h2,
        drawColumn_getD sprite x y color b xi hL p]
      by_cases hE : ∃ xi2 ∈ l, ∃ yi ∈ List.range sprite.height,
          sprite.data.getD (yi * sprite.width + xi2) 0 ≠ 0 ∧
          sprite.height - 1 + y - yi < b.height ∧ x + xi2 < b.width ∧
          p = (sprite.height - 1 + y - yi) * b.width + (x + xi2)
      · rw [if_pos hE]
        obtain ⟨w, hwl, hw⟩ := hE
        rw [if_pos ⟨w, List.mem_cons_of_mem _ hwl, hw⟩]
      · rw [if_neg hE]
        by_cases hC : ∃ yi ∈ List.range sprite.height,
            sprite.data.getD (yi * sprite.width + xi) 0 ≠ 0 ∧
            sprite.height - 1 + y - yi < b.height ∧ x + xi < b.width ∧
            p = (sprite.height - 1 + y - yi) * b.width + (x + xi)
        · rw [if_pos hC, if_pos ⟨xi, List.mem_cons_self xi l, hC⟩]
        · have hno : ¬ ∃ xi2 ∈ xi :: l, ∃ yi ∈ List.range sprite.height,
              sprite.data.getD (yi * sprite.width + xi2) 0 ≠ 0 ∧
              sprite.height - 1 + y - yi < b.height ∧ x + xi2 < b.width ∧
              p = (sprite.height - 1 + y - yi) * b.width + (x + xi2) := by
            rintro ⟨w, hwmem, hw⟩
            rcases List.mem_cons.mp hwmem with rfl | hwl
            · exact hC hw
            · exact hE ⟨w, hwl, hw⟩
          rw [if_neg hC, if_neg hno]

/-- The pixel-exact effect of `buffer_sprite_draw` on a well-formed buffer:
data index `p` holds `color` exactly when some set mask cell targets it
inside the bounds, and keeps its old value otherwise; the dimensions and
the data length never change. -/
theorem buffer_sprite_draw_char (buffer : Buffer) (sprite : Sprite)
    (x y color : Nat)
    (hL : buffer.data.length = buffer.width * buffer.height) :
    (buffer_sprite_draw buffer sprite x y color).width = buffer.width ∧
    (buffer_sprite_draw buffer sprite x y color).height = buffer.height ∧
    (buffer_sprite_draw buffer sprite x y color).data.length =
      buffer.data.length ∧
    ∀ p, (buffer_sprite_draw buffer sprite x y color).data.getD p 0 =
      if drawHits buffer sprite x y p then color
      else buffer.data.getD p 0 := by
  obtain ⟨⟨h1, h2, h3⟩, hg⟩ :=
    foldl_drawColumn_char sprite x y color (List.range sprite.width) buffer hL
  refine ⟨h1, h2, h3, fun p => ?_⟩
  rw [show buffer_sprite_draw buffer sprite x y color =
    (List.range sprite.width).foldl (drawColumn sprite x y color) buffer
    from rfl, hg p]
  by_cases hH : drawHits buffer sprite x y p
  · rw [if_pos hH]
    obtain ⟨xi, hxi, yi, hyi, hm, hsy, hsx, hp⟩ := hH
    rw [if_pos ⟨xi, List.mem_range.mpr hxi, yi, List.mem_range.mpr hyi,
      hm, hsy, hsx, hp⟩]
  · rw [if_neg hH]
    have hno : ¬ ∃ xi ∈ List.range sprite.width,
        ∃ yi ∈ List.range sprite.height,
        sprite.data.getD (yi * sprite.width + xi) 0 ≠ 0 ∧
        sprite.height - 1 + y - yi < buffer.height ∧
        x + xi < buffer.width ∧
        p = (sprite.height - 1 + y - yi) * buffer.width + (x + xi) := by
      rintro ⟨xi, hxi, yi, hyi, hm, hsy, hsx, hp⟩
      exact hH ⟨xi, List.mem_range.mp hxi, yi, List.mem_range.mp hyi,
        hm, hsy, hsx, hp⟩
    rw [if_neg hno]

/-! ## The bullet loop on a roster with no live alien: pure despawn -/

theorem alienScan_all_dead (anims : List SpriteAnimation) (bi : Nat) :
    ∀ (l : List Alien) (bs : List Bullet) (n : Nat),
      (∀ a ∈ l, a.type = AlienType.dead) →
      alienScan anims bi l bs n = .ok (l, bs, n) := by
  intro l
  induction l with
  | nil => intro bs n _; rfl
  | cons a rest ih =>
    intro bs n hdead
    have ha := hdead a (List.mem_cons_self a rest)
    have hrest := fun a2 h2 => hdead a2 (List.mem_cons_of_mem a h2)
    simp [alienScan, ha, ih bs n hrest]

theorem take_set_of_le {α : Type} (l : List α) (i m : Nat) (a : α)
    (h : m ≤ i) : (l.set i a).take m = l.take m := by
  apply List.ext_getElem (by simp)
  intro n h1 h2
  have hn : n < m := by simp [List.length_take] at h1; omega
  simp only [List.getElem_take]
  exact List.getElem_set_ne (by omega) _

theorem slice_cons {α : Type} [Inhabited α] (l : List α) (bi n : Nat)
    (hbi : bi < n) (hn : n ≤ l.length) :
    (l.take n).drop bi = l.getD bi default :: (l.take n).drop (bi + 1) := by
  rw [List.drop_eq_getElem_cons
    (show bi < (l.take n).length by simp [List.length_take]; omega)]
  congr 1
  rw [List.getElem_take]
  exact (getD_eq_getElem (by omega)).symm

theorem take_succ_getD {α : Type} [Inhabited α] (l : List α) (m : Nat)
    (hm : m < l.length) :
    l.take (m + 1) = l.take m ++ [l.getD m default] := by
  rw [List.take_succ, List.getElem?_eq_getElem hm, getD_eq_getElem hm]
  rfl

theorem filterMap_cons_perm {α β : Type} (f : α → Option β) (a : α)
    (l : List α) :
    (List.filterMap f (a :: l)).Perm (List.filterMap f (l ++ [a])) := by
  rw [List.filterMap_append]
  cases h : f a with
  | none => simp [List.filterMap_cons, h]
  | some b =>
    simp only [List.filterMap_cons, h, List.filterMap_nil]
    exact @List.perm_append_comm _ [b] (List.filterMap f l)

/-- With no live alien, the bullet loop is exactly the advance-and-despawn
pass: up to the reordering caused by swap-with-last removal, the live
bullets afterwards are the `advDespawn` survivors of the live bullets
before (with the already-processed prefix `take bi` untouched). -/
theorem bulletLoopGo_despawn_perm (height : Nat)
    (anims : List SpriteAnimation) :
    ∀ (fuel bi : Nat) (st : ScanState),
      (∀ a ∈ st.aliens, a.type = AlienType.dead) →
      st.num_bullets - bi < fuel →
      bi ≤ st.num_bullets → st.num_bullets ≤ st.bullets.length →
      ∃ st', bulletLoopGo height anims fuel bi st = .ok st' ∧
        st'.aliens = st.aliens ∧
        List.Perm (st'.bullets.take st'.num_bullets)
          (st.bullets.take bi ++
            ((st.bullets.take st.num_bullets).drop bi).filterMap
              (advDespawn height)) := by
  intro fuel
  induction fuel with
  | zero =>
    intro bi st _ hfuel _ _
    omega
  | succ fuel ih =>
    intro bi st hdead hfuel hbi hnlen
    by_cases hlt : bi < st.num_bullets
    · have hblen : bi < st.bullets.length := by omega
      set b := st.bullets.getD bi default with hb
      set y' := wAdd b.y b.dir with hy'
      by_cases hdesp : y' ≥ height ∨ y' < bullet_sprite.height
      · -- despawned this turn
        have hnone : advDespawn height b = none := by
          simp only [advDespawn]
          rw [if_pos hdesp]
        by_cases hlast : st.num_bullets - 1 = bi
        · -- the bullet was the last live one: the slot self-copies
          have hv : ((st.bullets.set bi { b with y := y' }).getD
              (st.num_bullets - 1) default) = { b with y := y' } := by
            rw [hlast, getD_set_self hblen]
          obtain ⟨st', h', haliens, hperm⟩ := ih bi
            ⟨st.aliens,
             (st.bullets.set bi { b with y := y' }).set bi
               ((st.bullets.set bi { b with y := y' }).getD
                 (st.num_bullets - 1) default),
             st.num_bullets - 1⟩
            hdead (show st.num_bullets - 1 - bi < fuel by omega)
            (show bi ≤ st.num_bullets - 1 by omega)
            (show st.num_bullets - 1 ≤
              ((st.bullets.set bi { b with y := y' }).set bi _).length by
              simp only [List.length_set]; omega)
          refine ⟨st', ?_, haliens, ?_⟩
          · simp only [bulletLoopGo]
            rw [if_pos hlt, if_pos hdesp]
            exact h'
          · refine hperm.trans ?_
            simp only [hv, List.set_set]
            rw [take_set_of_le _ _ _ _ (le_refl bi), hlast]
            rw [List.drop_eq_nil_of_le
              (show ((st.bullets.set bi { b with y := y' }).take bi).length ≤
                bi by simp [List.length_take])]
            rw [slice_cons st.bullets bi st.num_bullets hlt hnlen]
            rw [List.drop_eq_nil_of_le
              (show ((st.bullets.take st.num_bullets)).length ≤ bi + 1 by
                simp [List.length_take]; omega)]
            simp only [List.filterMap_cons, List.filterMap_nil, hnone,
              List.append_nil]
            exact List.Perm.refl _
        · -- a later live bullet is copied down into the slot
          have hv : ((st.bullets.set bi { b with y := y' }).getD
              (st.num_bullets - 1) default) =
              st.bullets.getD (st.num_bullets - 1) default :=
            getD_set_ne (fun h => hlast h.symm)
          obtain ⟨st', h', haliens, hperm⟩ := ih bi
            ⟨st.aliens,
             (st.bullets.set bi { b with y := y' }).set bi
               ((st.bullets.set bi { b with y := y' }).getD
                 (st.num_bullets - 1) default),
             st.num_bullets - 1⟩
            hdead (show st.num_bullets - 1 - bi < fuel by omega)
            (show bi ≤ st.num_bullets - 1 by omega)
            (show st.num_bullets - 1 ≤
              ((st.bullets.set bi { b with y := y' }).set bi _).length by
              simp only [List.length_set]; omega)
          refine ⟨st', ?_, haliens, ?_⟩
          · simp only [bulletLoopGo]
            rw [if_pos hlt, if_pos hdesp]
            exact h'
          · refine hperm.trans ?_
            simp only [hv, List.set_set]
            set w := st.bullets.getD (st.num_bullets - 1) default with hw
            rw [take_set_of_le _ _ _ _ (le_refl bi)]
            have hslice2 : ((st.bullets.set bi w).take
                (st.num_bullets - 1)).drop bi =
                w :: ((st.bullets.take (st.num_bullets - 1)).drop (bi + 1)) := by
              rw [slice_cons (st.bullets.set bi w) bi (st.num_bullets - 1)
                (by omega) (by simp only [List.length_set]; omega)]
              rw [getD_set_self hblen]
              congr 1
              rw [List.set_take, List.drop_set, if_pos (by omega)]
            have htake : st.bullets.take st.num_bullets =
                st.bullets.take (st.num_bullets - 1) ++ [w] := by
              conv_lhs =>
                rw [show st.num_bullets = (st.num_bullets - 1) + 1 by omega]
              exact take_succ_getD st.bullets (st.num_bullets - 1) (by omega)
            have hslice : (st.bullets.take st.num_bullets).drop bi =
                b :: ((st.bullets.take (st.num_bullets - 1)).drop (bi + 1)
                  ++ [w]) := by
              rw [slice_cons st.bullets bi st.num_bullets hlt hnlen]
              congr 1
              rw [htake, List.drop_append_of_le_length
                (by simp [List.length_take]; omega)]
            rw [hslice2, hslice]
            apply List.Perm.append_left
            refine (filterMap_cons_perm (advDespawn height) w _).trans ?_
            simp only [List.filterMap_cons, hnone]
            exact List.Perm.refl _
      · -- the bullet survives: all-dead scan is the identity, go to bi + 1
        have hsome : advDespawn height b = some { b with y := y' } := by
          simp only [advDespawn]
          rw [if_neg hdesp]
        have hscan := alienScan_all_dead anims bi st.aliens
          (st.bullets.set bi { b with y := y' }) st.num_bullets hdead
        obtain ⟨st', h', haliens, hperm⟩ := ih (bi + 1)
          ⟨st.aliens, st.bullets.set bi { b with y := y' }, st.num_bullets⟩
          hdead (show st.num_bullets - (bi + 1) < fuel by omega)
          (show bi + 1 ≤ st.num_bullets by omega)
          (show st.num_bullets ≤
            (st.bullets.set bi { b with y := y' }).length by
            simp only [List.length_set]; omega)
        refine ⟨st', ?_, haliens, ?_⟩
        · simp only [bulletLoopGo]
          rw [if_pos hlt, if_neg hdesp, hscan]
          exact h'
        · refine hperm.trans ?_
          have h1 : (st.bullets.set bi { b with y := y' }).take (bi + 1) =
              st.bullets.take bi ++ [{ b with y := y' }] := by
            rw [take_succ_getD _ bi (by simp only [List.length_set]; omega),
              getD_set_self hblen, take_set_of_le _ _ _ _ (le_refl bi)]
          have h2 : ((st.bullets.set bi { b with y := y' }).take
              st.num_bullets).drop (bi + 1) =
              (st.bullets.take st.num_bullets).drop (bi + 1) := by
            rw [List.set_take, List.drop_set, if_pos (by omega)]
          rw [h1, h2, slice_cons st.bullets bi st.num_bullets hlt hnlen]
          simp only [List.filterMap_cons, hsome, List.append_assoc,
            List.singleton_append]
          exact List.Perm.refl _
    · -- the loop ends
      have hbieq : bi = st.num_bullets := by omega
      refine ⟨st, ?_, rfl, ?_⟩
      · simp only [bulletLoopGo]
        rw [if_neg hlt]
      · rw [hbieq]
        rw [List.drop_eq_nil_of_le
          (show (st.bullets.take st.num_bullets).length ≤ st.num_bullets by
            simp [List.length_take])]
        simp

/-! ## The hit scan on a single bullet: clean pass and first hit -/

/-- A scan whose bullet overlaps no live alien changes nothing. -/
theorem alienScan_clean {t : Nat} (ht : t < 20) (bi : Nat) :
    ∀ (l : List Alien) (bs : List Bullet) (n : Nat),
      CleanOn (bs.getD bi default) l →
      alienScan (stdAnims t) bi l bs n = .ok (l, bs, n) := by
  intro l
  induction l with
  | nil => intro bs n _; rfl
  | cons a rest ih =>
    intro bs n hclean
    have hrest : CleanOn (bs.getD bi default) rest :=
      fun a2 h2 => hclean a2 (List.mem_cons_of_mem a h2)
    by_cases hdead : a.type = AlienType.dead
    · simp [alienScan, hdead, ih bs n hrest]
    · obtain ⟨an, sp, hA, hF, hw, hh⟩ := stdAnims_lookup ht a.type hdead
      have hno : ¬ sprite_overlap_check bullet_sprite
          (bs.getD bi default).x (bs.getD bi default).y sp a.x a.y := by
        intro hovl
        exact hclean a (List.mem_cons_self a rest)
          ⟨hdead, (overlap_iff_ovl hw hh _ _ a.x a.y).mp hovl⟩
      simp only [alienScan]
      rw [if_neg hdead]
      simp only [hA, hF]
      rw [if_neg hno, ih bs n hrest]

/-- Scanning the last live bullet (`n = bi + 1`) against a roster in which
exactly one alien is a live overlap: that alien (at index `k`) is marked
dead and recentred for the death sprite, the bullet count drops to `bi`,
and the bullet array is unchanged (the removal copies the slot onto
itself). -/
theorem alienScan_first_hit {t : Nat} (ht : t < 20) (bi : Nat) :
    ∀ (l : List Alien) (bs : List Bullet), bi < bs.length →
      ∀ k, k < l.length →
      liveAlien (l.getD k default) →
      ovl (bs.getD bi default).x (bs.getD bi default).y (l.getD k default) →
      (∀ j, j < l.length → j ≠ k →
        ¬(liveAlien (l.getD j default) ∧
          ovl (bs.getD bi default).x (bs.getD bi default).y
            (l.getD j default))) →
      ∃ sp, spriteOf (stdAnims t) (l.getD k default).type = some sp ∧
        alienScan (stdAnims t) bi l bs (bi + 1) =
          .ok (l.set k { l.getD k default with
              type := AlienType.dead
              x := wSub (l.getD k default).x
                (wSub alien_death_sprite.width sp.width / 2) }, bs, bi) := by
  intro l
  induction l with
  | nil =>
    intro bs hbl k hk hlive hovl hother
    exact absurd hk (by simp)
  | cons a rest ih =>
    intro bs hbl k hk hlive hovl hother
    cases k with
    | zero =>
      rw [List.getD_cons_zero] at hlive hovl
      obtain ⟨an, sp, hA, hF, hw, hh⟩ := stdAnims_lookup ht a.type hlive
      have hovl' : sprite_overlap_check bullet_sprite
          (bs.getD bi default).x (bs.getD bi default).y sp a.x a.y :=
        (overlap_iff_ovl hw hh _ _ a.x a.y).mpr hovl
      have hclean : CleanOn (bs.getD bi default) rest := by
        intro a2 ha2
        obtain ⟨j, hj, heq⟩ := List.mem_iff_getElem.mp ha2
        intro hcontra
        refine hother (j + 1) (by simp only [List.length_cons]; omega)
          (by omega) ?_
        rw [List.getD_cons_succ, getD_eq_getElem hj, heq]
        exact hcontra
      refine ⟨sp, ?_, ?_⟩
      · rw [List.getD_cons_zero]
        simp [spriteOf, hA, hF]
      · simp only [List.getD_cons_zero, List.set_cons_zero]
        simp only [alienScan]
        rw [if_neg hlive]
        simp only [hA, hF]
        rw [if_pos hovl', if_neg (Nat.succ_ne_zero bi)]
        simp only [Nat.add_sub_cancel]
        rw [set_getD_self hbl]
        rw [alienScan_clean ht bi rest bs bi hclean]
    | succ j =>
      rw [List.getD_cons_succ] at hlive hovl
      have hjlen : j < rest.length := by
        simp only [List.length_cons] at hk; omega
      have hother' : ∀ j2, j2 < rest.length → j2 ≠ j →
          ¬(liveAlien (rest.getD j2 default) ∧
            ovl (bs.getD bi default).x (bs.getD bi default).y
              (rest.getD j2 default)) := by
        intro j2 hj2 hne
        have := hother (j2 + 1) (by simp only [List.length_cons]; omega)
          (by omega)
        rw [List.getD_cons_succ] at this
        exact this
      obtain ⟨sp, hsp, heq⟩ := ih bs hbl j hjlen hlive hovl hother'
      refine ⟨sp, by rwa [List.getD_cons_succ], ?_⟩
      have hhead := hother 0 (by simp) (by omega)
      rw [List.getD_cons_zero] at hhead
      simp only [List.getD_cons_succ, List.set_cons_succ]
      by_cases hdead : a.type = AlienType.dead
      · simp only [alienScan]
        rw [if_pos hdead, heq]
      · have hnovl : ¬ ovl (bs.getD bi default).x (bs.getD bi default).y a :=
          fun h => hhead ⟨hdead, h⟩
        obtain ⟨an2, sp2, hA2, hF2, hw2, hh2⟩ := stdAnims_lookup ht a.type hdead
        have hno : ¬ sprite_overlap_check bullet_sprite
            (bs.getD bi default).x (bs.getD bi default).y sp2 a.x a.y :=
          fun h => hnovl ((overlap_iff_ovl hw2 hh2 _ _ a.x a.y).mp h)
        simp only [alienScan]
        rw [if_neg hdead]
        simp only [hA2, hF2]
        rw [if_neg hno, heq]

/-- The frame the hit scan reads for a live alien under the standard
animations always has the type's `frameWidthOf` width and height 8. -/
theorem spriteOf_width {t : Nat} (ht : t < 20) {τ : AlienType}
    (hτ : ¬ τ = AlienType.dead) {sp : Sprite}
    (h : spriteOf (stdAnims t) τ = some sp) :
    sp.width = frameWidthOf τ ∧ sp.height = 8 := by
  obtain ⟨an, sp2, hA, hF, hw, hh⟩ := stdAnims_lookup ht τ hτ
  have h2 : spriteOf (stdAnims t) τ = some sp2 := by simp [spriteOf, hA, hF]
  rw [h2] at h
  obtain rfl := Option.some.inj h
  exact ⟨hw, hh⟩

/-! ## Rendering does not look at aliens whose counter reached zero -/

theorem foldl_congr_fn {α β : Type} (f g : β → α → β) :
    ∀ (l : List α) (b : β), (∀ b2 x, f b2 x = g b2 x) →
      l.foldl f b = l.foldl g b := by
  intro l
  induction l with
  | nil => intro b _; rfl
  | cons a l ih =>
    intro b h
    simp only [List.foldl_cons, h]
    exact ih _ h

/-- The per-alien draw step reads slot `k` of the roster only when slot `k`
of the death counters is nonzero. -/
theorem renderAlienStep_congr (anims : List SpriteAnimation)
    (aliens : List Alien) (dc : List Nat) (k : Nat) (a' : Alien)
    (hdc : dc.getD k 0 = 0) (buf : Buffer) (ai : Nat) :
    renderAlienStep anims (aliens.set k a') dc buf ai =
      renderAlienStep anims aliens dc buf ai := by
  by_cases hk : ai = k
  · subst hk
    simp only [renderAlienStep]
    rw [if_pos hdc, if_pos hdc]
  · have hne : k ≠ ai := fun h => hk h.symm
    simp only [renderAlienStep, getD_set_ne hne]

/-- Replacing a roster slot whose death counter is `0` does not change the
rendered frame. -/
theorem renderFrame_set_dead (buf : Buffer) (s : GameState) (k : Nat)
    (a' : Alien) (hdc : s.death_counters.getD k 0 = 0) :
    renderFrame buf { s with aliens := s.aliens.set k a' } =
      renderFrame buf s := by
  have hfold := foldl_congr_fn
    (renderAlienStep s.animations (s.aliens.set k a') s.death_counters)
    (renderAlienStep s.animations s.aliens s.death_counters)
    (List.range s.num_aliens)
    (buffer_clear buf (rgb_to_uint32 0 0 0))
    (renderAlienStep_congr s.animations s.aliens s.death_counters k a' hdc)
  simp only [renderFrame]
  rw [hfold]

/-! ## The claims -/

/-- Claim C2: the core is total over its bounded state: from every
reachable game state, under the spec's input model, the tick returns `.ok`
(so every bullet-array, roster and animation-frame index it used was in
range, and `num_bullets - 1` never underflowed), the bullet array has
exactly its fixed capacity of 128 slots with `num_bullets` never above it,
and the resulting state is reachable again. -/
theorem c2_total_step {s : GameState} (hs : Reachable s) {i : Input}
    (hi : ValidInput i) :
    s.bullets.length = GAME_MAX_BULLETS ∧
    s.num_bullets ≤ GAME_MAX_BULLETS ∧
    ∃ s', stepTick i s = .ok s' ∧ Reachable s' := by
  obtain ⟨hw, hh, hna, hal, hdcl, hanims, hbl, hnb, hpx, hpos⟩ :=
    reachable_inv hs
  obtain ⟨s', hok, _⟩ := inv_step (reachable_inv hs) hi
  exact ⟨hbl, hnb, s', hok, Reachable.step hs hi hok⟩

/-- The tick from the initial state returns `.ok`, by Claim C2. -/
theorem c2_total_step_witness :
    initState.bullets.length = GAME_MAX_BULLETS ∧
    (stepTick noInput initState).toOption.isSome = true := by
  obtain ⟨hlen, -, s', hok, -⟩ :=
    @c2_total_step initState Reachable.init noInput (Or.inr (Or.inl rfl))
  rw [hok]
  exact ⟨hlen, rfl⟩

/-- Claim C3: the player starts at `x = 107` and, in every reachable state,
satisfies `0 ≤ x ≤ 224 - player_width`; each tick moves the player by
exactly `2 * net direction`, snapping to `224 - player_width` when a right
move would reach or pass the right edge and to `0` when a left move would
reach or pass `0`. -/
theorem c3_player_clamp :
    initState.player.x = 107 ∧
    ∀ s : GameState, Reachable s →
      s.player.x ≤ 224 - player_sprite.width ∧
      ∀ i : Input, ValidInput i → ∀ s' : GameState, stepTick i s = .ok s' →
        s'.player.x =
          (if i.move = 1 ∧ 224 ≤ s.player.x + player_sprite.width + 2 then
            224 - player_sprite.width
          else if i.move = -1 ∧ (s.player.x : Int) - 2 ≤ 0 then 0
          else ((s.player.x : Int) + 2 * i.move).toNat) := by
  refine ⟨rfl, ?_⟩
  intro s hs
  obtain ⟨hw, hh, hna, hal, hdcl, hanims, hbl, hnb, hpx, hpos⟩ :=
    reachable_inv hs
  refine ⟨hpx, ?_⟩
  intro i hi s' hok
  obtain ⟨st, hdc, hloop, ha, hp, hb, hn, hanim, hf, hw', hh', hna'⟩ :=
    stepTick_ok_char hok
  rw [hp, hw]
  rcases hi with hm | hm | hm <;> rw [hm]
  · rw [playerMove_left hpx]
    show (if s.player.x ≤ 2 then 0 else s.player.x - 2) = _
    simp only [show player_sprite.width = 11 from rfl]
    norm_num
    split_ifs <;> omega
  · rw [playerMove_zero]
    simp only [show player_sprite.width = 11 from rfl]
    norm_num
  · rw [playerMove_right hpx]
    show (if 224 ≤ s.player.x + 13 then 213 else s.player.x + 2) = _
    simp only [show player_sprite.width = 11 from rfl]
    norm_num
    split_ifs <;> omega

/-- The initial state satisfies the Claim C3 bound. -/
theorem c3_player_clamp_witness :
    initState.player.x ≤ 224 - player_sprite.width :=
  (c3_player_clamp.2 initState Reachable.init).1

/-- Claim C4: `buffer_sprite_draw` preserves the buffer dimensions and
writes the color to exactly the pixels hit by a set mask bit of the sprite
at an in-bounds target coordinate (`drawHits`); every other pixel —
mask bit `0`, outside the sprite, or targeted out of bounds — keeps its
previous value, with no error and no wraparound write. -/
theorem c4_sprite_draw_pixels (buffer : Buffer) (sprite : Sprite)
    (x y color : Nat)
    (hL : buffer.data.length = buffer.width * buffer.height) :
    (buffer_sprite_draw buffer sprite x y color).width = buffer.width ∧
    (buffer_sprite_draw buffer sprite x y color).height = buffer.height ∧
    (buffer_sprite_draw buffer sprite x y color).data.length =
      buffer.data.length ∧
    ∀ p, (buffer_sprite_draw buffer sprite x y color).data.getD p 0 =
      if drawHits buffer sprite x y p then color
      else buffer.data.getD p 0 :=
  buffer_sprite_draw_char buffer sprite x y color hL

/-- Drawing the bullet sprite at the origin of a 2×3 buffer, by Claim C4:
the pixel at row 2, column 0 is hit and painted, the pixel at row 2,
column 1 is not and keeps its value. -/
theorem c4_sprite_draw_pixels_witness :
    ((buffer_sprite_draw ⟨2, 3, [5, 5, 5, 5, 5, 5]⟩ bullet_sprite 0 0
        7).data.getD (2 * 2 + 0) 0 =
      if drawHits ⟨2, 3, [5, 5, 5, 5, 5, 5]⟩ bullet_sprite 0 0 (2 * 2 + 0)
      then 7 else 5) ∧
    ((buffer_sprite_draw ⟨2, 3, [5, 5, 5, 5, 5, 5]⟩ bullet_sprite 0 0
        7).data.getD (2 * 2 + 1) 0 =
      if drawHits ⟨2, 3, [5, 5, 5, 5, 5, 5]⟩ bullet_sprite 0 0 (2 * 2 + 1)
      then 7 else 5) :=
  ⟨(c4_sprite_draw_pixels ⟨2, 3, [5, 5, 5, 5, 5, 5]⟩ bullet_sprite 0 0 7
      (by decide)).2.2.2 (2 * 2 + 0),
   (c4_sprite_draw_pixels ⟨2, 3, [5, 5, 5, 5, 5, 5]⟩ bullet_sprite 0 0 7
      (by decide)).2.2.2 (2 * 2 + 1)⟩

set_option maxRecDepth 100000 in
/-- Claim C5: with no live alien in the way, a tick's bullet pass advances
every live bullet's `y` by its direction and removes (swap-with-last,
order not preserved) exactly the bullets whose new `y` reaches the buffer
height or falls below the bullet sprite's height; and the spec's scenario
holds: a bullet at `y = 35` with `dir = +2` in the 256-high game is still
live at `y = 255` after 110 ticks and is removed on the 111th. -/
theorem c5_bullet_advance_despawn :
    (∀ (height : Nat) (anims : List SpriteAnimation) (st : ScanState),
      (∀ a ∈ st.aliens, a.type = AlienType.dead) →
      st.num_bullets ≤ st.bullets.length →
      ∃ st', bulletLoop height anims st = .ok st' ∧
        st'.aliens = st.aliens ∧
        List.Perm (st'.bullets.take st'.num_bullets)
          ((st.bullets.take st.num_bullets).filterMap (advDespawn height))) ∧
    ((stepN noInput 110 c5State).toOption.map
        (fun s => (s.num_bullets, (s.bullets.getD 0 default).y)) =
      some (1, 255)) ∧
    ((stepN noInput 111 c5State).toOption.map (fun s => s.num_bullets) =
      some 0) := by
  refine ⟨?_, by decide, by decide⟩
  intro height anims st hdead hlen
  obtain ⟨st', h', ha, hperm⟩ := bulletLoopGo_despawn_perm height anims
    (st.num_bullets + 1) 0 st hdead (by omega) (by omega) hlen
  refine ⟨st', h', ha, ?_⟩
  simpa using hperm

/-- The bullet pass with no aliens returns `.ok`, by Claim C5. -/
theorem c5_bullet_advance_despawn_witness :
    (bulletLoop 256 (stdAnims 0)
      ⟨[], [{ x := 50, y := 35, dir := 2 }], 1⟩).toOption.isSome = true := by
  obtain ⟨st', h', -, -⟩ := c5_bullet_advance_despawn.1 256 (stdAnims 0)
    ⟨[], [{ x := 50, y := 35, dir := 2 }], 1⟩ (by decide) (by decide)
  rw [h']
  rfl

/-- Claim C6: on a successful tick, a bullet is spawned iff the fire latch
was set and the post-bullet-pass live count is below 128; the spawned
bullet sits at `(player.x + player_width / 2, player.y + player_height)`
(for the already-moved player) with direction `+2` and the count grows by
one; otherwise bullets and count are unchanged; and the fire latch after
the tick is exactly the tick's incoming fire event. -/
theorem c6_fire_spawn (i : Input) (s s' : GameState)
    (h : stepTick i s = .ok s') :
    ∃ st : ScanState,
      bulletLoop s.height (s.animations.map animAdvance)
        ⟨s.aliens, s.bullets, s.num_bullets⟩ = .ok st ∧
      (s.fire_pressed = true ∧ st.num_bullets < GAME_MAX_BULLETS →
        s'.num_bullets = st.num_bullets + 1 ∧
        s'.bullets = st.bullets.set st.num_bullets
          { x := s'.player.x + player_sprite.width / 2
            y := s'.player.y + player_sprite.height
            dir := 2 }) ∧
      (s.fire_pressed = false ∨ GAME_MAX_BULLETS ≤ st.num_bullets →
        s'.num_bullets = st.num_bullets ∧ s'.bullets = st.bullets) ∧
      s'.fire_pressed = i.fireEvent := by
  obtain ⟨st, hdc, hloop, ha, hp, hb, hn, hanim, hf, hw, hh, hna⟩ :=
    stepTick_ok_char h
  refine ⟨st, hloop, ?_, ?_, hf⟩
  · rintro ⟨hfire, hlt⟩
    rw [hn, hb]
    simp only [fireStep]
    rw [if_pos (show s.fire_pressed ∧ st.num_bullets < GAME_MAX_BULLETS from
      ⟨hfire, hlt⟩)]
    exact ⟨rfl, rfl⟩
  · rintro (hfire | hge)
    · have hneg : ¬(s.fire_pressed ∧ st.num_bullets < GAME_MAX_BULLETS) := by
        rw [hfire]; simp
      rw [hn, hb]
      simp only [fireStep]
      rw [if_neg hneg]
      exact ⟨rfl, rfl⟩
    · have hneg : ¬(s.fire_pressed ∧ st.num_bullets < GAME_MAX_BULLETS) :=
        fun hc => absurd hc.2 (by omega)
      rw [hn, hb]
      simp only [fireStep]
      rw [if_neg hneg]
      exact ⟨rfl, rfl⟩

/-- A tick from a state with the fire latch set, by Claim C6: the latch is
reset even as a bullet spawns. -/
theorem c6_fire_spawn_witness :
    ({ c6State with
        bullets := [{ x := 112, y := 39, dir := 2 }]
        num_bullets := 1
        animations := stdAnims 1
        fire_pressed := false } : GameState).fire_pressed =
      noInput.fireEvent := by
  obtain ⟨st, -, -, -, hf⟩ := c6_fire_spawn noInput c6State
    { c6State with
      bullets := [{ x := 112, y := 39, dir := 2 }]
      num_bullets := 1
      animations := stdAnims 1
      fire_pressed := false } (by rfl)
  exact hf

/-- Claim C7: on every successful tick the death counter of roster slot `k`
drops by exactly 1 iff the alien there is dead with a nonzero counter; the
alien-draw step skips (leaves the buffer unchanged for) a slot whose
counter is 0 and the rendered frame does not depend on such a slot at all;
and the spec's scenario holds: a counter seeded at 10 reads 1 after 9
ticks, 0 after the 10th, and stays 0. -/
theorem c7_death_countdown :
    (∀ (i : Input) (s s' : GameState), stepTick i s = .ok s' →
      ∀ k, k < s.num_aliens → k < s.death_counters.length →
        s'.death_counters.getD k 0 =
          (if (s.aliens.getD k default).type = AlienType.dead ∧
              s.death_counters.getD k 0 ≠ 0 then
            s.death_counters.getD k 0 - 1
          else s.death_counters.getD k 0)) ∧
    (∀ (anims : List SpriteAnimation) (aliens : List Alien) (dc : List Nat)
      (buf : Buffer) (k : Nat), dc.getD k 0 = 0 →
        renderAlienStep anims aliens dc buf k = buf) ∧
    (∀ (s : GameState) (buf : Buffer) (k : Nat) (a' : Alien),
      s.death_counters.getD k 0 = 0 →
      renderFrame buf { s with aliens := s.aliens.set k a' } =
        renderFrame buf s) ∧
    ((stepN noInput 9 c7State).toOption.map
        (fun s => s.death_counters.getD 0 0) = some 1) ∧
    ((stepN noInput 10 c7State).toOption.map
        (fun s => s.death_counters.getD 0 0) = some 0) ∧
    ((stepN noInput 11 c7State).toOption.map
        (fun s => s.death_counters.getD 0 0) = some 0) := by
  refine ⟨?_, ?_, fun s buf k a' hdc => renderFrame_set_dead buf s k a' hdc,
    by decide, by decide, by decide⟩
  · intro i s s' h k hkna hkdc
    obtain ⟨st, hdc, hloop, ha, hp, hb, hn, hanim, hf, hw, hh, hna⟩ :=
      stepTick_ok_char h
    rw [alienCountdown] at hdc
    by_cases hg : s.num_aliens ≤ s.aliens.length ∧
        s.num_aliens ≤ s.death_counters.length
    · rw [if_pos hg] at hdc
      have hmap := Except.ok.inj hdc
      rw [← hmap, getD_map_range hkdc]
      by_cases hcond : (s.aliens.getD k default).type = AlienType.dead ∧
          s.death_counters.getD k 0 ≠ 0
      · rw [if_pos ⟨hkna, hcond⟩, if_pos hcond]
      · rw [if_neg (fun hc => hcond hc.2), if_neg hcond]
    · rw [if_neg hg] at hdc
      exact absurd hdc (by simp)
  · intro anims aliens dc buf k hdc
    simp only [renderAlienStep]
    rw [if_pos hdc]

/-- The first countdown tick of the death-counter scenario, by Claim C7. -/
theorem c7_death_countdown_witness :
    ({ c7State with
        death_counters := [9]
        animations := stdAnims 1 } : GameState).death_counters.getD 0 0 =
      (if (c7State.aliens.getD 0 default).type = AlienType.dead ∧
          c7State.death_counters.getD 0 0 ≠ 0 then
        c7State.death_counters.getD 0 0 - 1
      else c7State.death_counters.getD 0 0) :=
  c7_death_countdown.1 noInput c7State
    { c7State with death_counters := [9], animations := stdAnims 1 }
    (by rfl) 0 (by decide) (by decide)

/-- Claim C8: every animation of a reachable state is one of the three
looping alien animations with `num_frames = 2` and `frame_duration = 10`;
its elapsed time satisfies `time < num_frames * frame_duration`, the
selected frame index `time / frame_duration` is below `num_frames` and
equals `(time / frame_duration) % num_frames`, and the per-tick advance
adds 1 to `time`, resetting to 0 exactly when it reaches
`num_frames * frame_duration`, so the bound is preserved. -/
theorem c8_animation_loop :
    ∀ s : GameState, Reachable s → ∀ a ∈ s.animations,
      a.loop = true ∧ a.num_frames = 2 ∧ a.frame_duration = 10 ∧
      a.time < a.num_frames * a.frame_duration ∧
      a.time / a.frame_duration < a.num_frames ∧
      a.time / a.frame_duration = a.time / a.frame_duration % a.num_frames ∧
      (animAdvance a).time =
        (if a.time + 1 = a.num_frames * a.frame_duration then 0
         else a.time + 1) ∧
      (animAdvance a).time < a.num_frames * a.frame_duration := by
  intro s hs a ha
  obtain ⟨-, -, -, -, -, ⟨t, ht, hanim⟩, -, -, -, -⟩ := reachable_inv hs
  rw [hanim] at ha
  simp only [stdAnims, List.mem_cons, List.not_mem_nil, or_false] at ha
  rcases ha with rfl | rfl | rfl
  all_goals
    refine ⟨rfl, rfl, rfl, ?_, ?_, ?_, ?_, ?_⟩
    · show t < 2 * 10
      omega
    · show t / 10 < 2
      omega
    · show t / 10 = t / 10 % 2
      omega
    · simp only [animAdvance]
      split_ifs <;> rfl
    · simp only [animAdvance]
      split_ifs with hreset
      · show (0 : Nat) < 2 * 10
        omega
      · show t + 1 < 2 * 10
        omega

/-- The first alien animation of the initial state, by Claim C8: its time
is inside the looping window. -/
theorem c8_animation_loop_witness :
    ({ loop := true, num_frames := 2, frame_duration := 10, time := 0,
       frames := [alien_sprite0, alien_sprite1] }
        : SpriteAnimation).time <
      ({ loop := true, num_frames := 2, frame_duration := 10, time := 0,
         frames := [alien_sprite0, alien_sprite1] }
          : SpriteAnimation).num_frames *
        ({ loop := true, num_frames := 2, frame_duration := 10, time := 0,
           frames := [alien_sprite0, alien_sprite1] }
            : SpriteAnimation).frame_duration :=
  (c8_animation_loop initState Reachable.init
    { loop := true, num_frames := 2, frame_duration := 10, time := 0,
      frames := [alien_sprite0, alien_sprite1] } (by decide)).2.2.2.1

/-- Claim C9: a roster slot holding a dead alien is untouched by a
successful tick — the hit scan skips dead aliens, so the alien neither
revives nor is hit again, and a bullet passing through its position
produces no further effect on it. -/
theorem c9_dead_stays_dead (i : Input) (s s' : GameState)
    (h : stepTick i s = .ok s') (k : Nat)
    (hk : (s.aliens.getD k default).type = AlienType.dead) :
    s'.aliens.getD k default = s.aliens.getD k default := by
  obtain ⟨st, hdc, hloop, ha, hp, hb, hn, hanim, hf, hw, hh, hna⟩ :=
    stepTick_ok_char h
  obtain ⟨hfor, -, -⟩ := bulletLoopGo_ok_char s.height
    (s.animations.map animAdvance) (s.num_bullets + 1) 0
    ⟨s.aliens, s.bullets, s.num_bullets⟩ st hloop
  have hlen : s.aliens.length = st.aliens.length := hfor.length_eq
  rw [ha]
  by_cases hkl : k < s.aliens.length
  · have hrel := forall₂_getElem hfor k hkl (by omega)
    rcases hrel with heq | ⟨hlive, sp, hsp, heq⟩
    · rw [getD_eq_getElem (show k < st.aliens.length by omega),
        getD_eq_getElem hkl]
      exact heq
    · exfalso
      rw [getD_eq_getElem hkl] at hk
      exact hlive hk
  · rw [List.getD_eq_default _ _ (show st.aliens.length ≤ k by omega),
      List.getD_eq_default _ _ (show s.aliens.length ≤ k by omega)]

/-- A tick over the dead alien of the death-counter scenario leaves it
unchanged, by Claim C9. -/
theorem c9_dead_stays_dead_witness :
    ({ c7State with
        death_counters := [9]
        animations := stdAnims 1 } : GameState).aliens.getD 0 default =
      c7State.aliens.getD 0 default :=
  c9_dead_stays_dead noInput c7State
    { c7State with death_counters := [9], animations := stdAnims 1 }
    (by rfl) 0 (by decide)

/-- Claim C10: a successful tick from a reachable state never changes an
alien's `y`, and changes its `x` only at the tick the alien is hit: a
roster slot either keeps its exact contents or was live and is now dead
with `x` shifted left by `(death_width - frame_width) / 2` — aliens are
stationary, only the player and bullets move. -/
theorem c10_aliens_stationary (s : GameState) (hs : Reachable s)
    (i : Input) (s' : GameState) (h : stepTick i s = .ok s') (k : Nat)
    (hk : k < s.aliens.length) :
    (s'.aliens.getD k default).y = (s.aliens.getD k default).y ∧
    (s'.aliens.getD k default = s.aliens.getD k default ∨
      (liveAlien (s.aliens.getD k default) ∧
       (s'.aliens.getD k default).type = AlienType.dead ∧
       (s'.aliens.getD k default).x =
         (s.aliens.getD k default).x -
           (alien_death_sprite.width -
             frameWidthOf (s.aliens.getD k default).type) / 2)) := by
  obtain ⟨hw, hh, hna, hal, hdcl, ⟨t, ht, hanim⟩, hbl, hnb, hpx, hpos⟩ :=
    reachable_inv hs
  obtain ⟨st, hdc, hloop, ha, hp, hb, hn, hanim', hf, hw', hh', hna'⟩ :=
    stepTick_ok_char h
  have ht2 : (if t + 1 = 20 then 0 else t + 1) < 20 := by
    by_cases hcase : t + 1 = 20
    · simp [hcase]
    · simp only [if_neg hcase]
      omega
  have hanims2 : s.animations.map animAdvance =
      stdAnims (if t + 1 = 20 then 0 else t + 1) := by
    rw [hanim, stdAnims_map_advance]
  rw [hanims2] at hloop
  obtain ⟨hfor, -, -⟩ := bulletLoopGo_ok_char s.height
    (stdAnims (if t + 1 = 20 then 0 else t + 1)) (s.num_bullets + 1) 0
    ⟨s.aliens, s.bullets, s.num_bullets⟩ st hloop
  have hlen : s.aliens.length = st.aliens.length := hfor.length_eq
  have hrel := forall₂_getElem hfor k hk (by omega)
  rw [ha, getD_eq_getElem (show k < st.aliens.length by omega),
    getD_eq_getElem hk]
  rcases hrel with heq | ⟨hlive, sp, hsp, heq⟩
  · rw [heq]
    exact ⟨rfl, Or.inl rfl⟩
  · rw [heq]
    refine ⟨rfl, Or.inr ⟨hlive, rfl, ?_⟩⟩
    obtain ⟨hspw, -⟩ := spriteOf_width ht2 hlive hsp
    rw [hspw]
    have hW : (300 : Nat) < W64 := by norm_num [W64]
    have h13 : alien_death_sprite.width = 13 := rfl
    have hwle : frameWidthOf s.aliens[k].type ≤ 13 := by
      cases s.aliens[k].type <;> decide
    have hOK := hpos k hk
    rw [getD_eq_getElem hk] at hOK
    obtain ⟨-, hxt⟩ := hOK
    obtain ⟨-, hx⟩ := hxt hlive
    rw [h13] at hx ⊢
    have hmod : k % 11 < 11 := Nat.mod_lt _ (by omega)
    rw [wSub_eq hwle (by omega),
      wSub_eq (show (13 - frameWidthOf s.aliens[k].type) / 2 ≤
        s.aliens[k].x by omega) (show s.aliens[k].x < W64 by omega)]

/-- The first tick from the initial state keeps alien 0's row, by
Claim C10. -/
theorem c10_aliens_stationary_witness :
    (({ initState with animations := stdAnims 1 }
        : GameState).aliens.getD 0 default).y =
      (initState.aliens.getD 0 default).y :=
  (c10_aliens_stationary initState Reachable.init noInput
    { initState with animations := stdAnims 1 } (by rfl) 0 (by decide)).1

/-- Claim C1 counterexample: in the tick from `c1State` the single bullet
overlaps two live aliens.  The scan does not stop at the first hit — the
code `continue`s to the next alien — so after the first removal
(`num_bullets` now 0, the slot self-copied) the slot still overlaps the
second alien and the second removal reads `bullets[num_bullets - 1]` with
`num_bullets == 0`, out of bounds; under the spec's break-on-hit semantics
(`alienScanBreak`) the same scan succeeds with exactly one alien killed
and the bullet removed once. -/
theorem c1_hit_once_counterexample :
    stepTick noInput c1State = .error .oobBullets ∧
    alienScanBreak (stdAnims 1) 0 c1State.aliens
      [{ x := 50, y := 100, dir := 2 }] 1 =
      .ok ([{ x := 48, y := 100, type := .dead },
            { x := 50, y := 100, type := .typeA }],
           [{ x := 50, y := 100, dir := 2 }], 0) :=
  ⟨by rfl, by rfl⟩

/-- Claim C1 (amended): the per-bullet hit scan does not break at the
first hit — it `continue`s over the remaining aliens with the slot's new
contents.  For the last live bullet (`n = bi + 1`): a scan whose bullet
overlaps no live alien changes nothing, and a scan whose bullet overlaps
exactly one live alien (index `k`) kills that alien alone — marked dead,
recentred for the wider death sprite — removes the bullet (count back to
`bi`, the swap-with-last copying the slot onto itself) and touches no
other alien and no other bullet slot. -/
theorem c1_single_bullet_hit {t : Nat} (ht : t < 20) (bi : Nat)
    (l : List Alien) (bs : List Bullet) (hbl : bi < bs.length) :
    (CleanOn (bs.getD bi default) l →
      alienScan (stdAnims t) bi l bs (bi + 1) = .ok (l, bs, bi + 1)) ∧
    (∀ k, k < l.length →
      liveAlien (l.getD k default) →
      ovl (bs.getD bi default).x (bs.getD bi default).y (l.getD k default) →
      (∀ j, j < l.length → j ≠ k →
        ¬(liveAlien (l.getD j default) ∧
          ovl (bs.getD bi default).x (bs.getD bi default).y
            (l.getD j default))) →
      ∃ sp, spriteOf (stdAnims t) (l.getD k default).type = some sp ∧
        alienScan (stdAnims t) bi l bs (bi + 1) =
          .ok (l.set k { l.getD k default with
              type := AlienType.dead
              x := wSub (l.getD k default).x
                (wSub alien_death_sprite.width sp.width / 2) }, bs, bi)) :=
  ⟨fun hclean => alienScan_clean ht bi l bs (bi + 1) hclean,
   fun k hk hlive hovl hother =>
     alienScan_first_hit ht bi l bs hbl k hk hlive hovl hother⟩

/-- A last-bullet scan against a roster with exactly one overlapping live
alien, by the amended Claim C1: the first alien is killed and recentred,
the second untouched, the bullet array unchanged and the count back to
zero. -/
theorem c1_single_bullet_hit_witness :
    alienScan (stdAnims 0) 0
      [{ x := 50, y := 100, type := .typeA },
       { x := 80, y := 100, type := .typeA }]
      [{ x := 50, y := 100, dir := 2 }] 1 =
      .ok ([{ x := 48, y := 100, type := .dead },
            { x := 80, y := 100, type := .typeA }],
           [{ x := 50, y := 100, dir := 2 }], 0) := by
  obtain ⟨sp, hsp, heq⟩ := (c1_single_bullet_hit
    (show (0 : Nat) < 20 by decide) 0
    [{ x := 50, y := 100, type := .typeA },
     { x := 80, y := 100, type := .typeA }]
    [{ x := 50, y := 100, dir := 2 }] (by decide)).2
    0 (by decide) (by decide) (by decide) (by decide)
  have h0 : spriteOf (stdAnims 0) AlienType.typeA = some alien_sprite0 := rfl
  have hsp0 : sp = alien_sprite0 := (Option.some.inj (h0.symm.trans hsp)).symm
  rw [hsp0] at heq
  exact heq

end SpaceInv
